import Mathlib

/-!
Verification of the Titan blob garbage-collection job (`src/blob_gc_job.cc`)
against its natural-language specification.

The development is a shallow embedding of the GC job: each C++ function is
translated into an executable Lean definition over an explicit environment
(the outcomes of all external calls — LSM point lookups, write-callback
commit results, file-manager statuses — are supplied as data).  Machine
integers are modelled as `Nat`/`Int`; no claim depends on overflow.

Modelling conventions, stated once:
* `assert(...)` statements are no-ops, matching release (`NDEBUG`) builds.
* External collaborators that are not part of this repository's source
  (`BlobFileMeta::IsLiveData`, `BlobFileBuilder`, `BlobFileManager`, the
  LSM engine, the shadow `TableBuilder`) are modelled from the spec's
  interface descriptions (spec §4.2, §6): lookups and commit outcomes are
  environment data; file allocation is modelled as always succeeding with
  sequentially assigned numbers, since no claim is about those failure
  paths.
* `BlobFileBuilder::Add` is modelled as emitting one output context per
  record immediately (spec §4.3 step 4: "append the record ...; enqueue a
  RewriteBatch"), and the encoded offset of a rewritten record is
  abstracted to 0 (no claim mentions offsets of new records).
-/

namespace TitanGC

/-- Status values returned by the GC job and its collaborators, mirroring
`rocksdb::Status` constructors used in `blob_gc_job.cc`. -/
inductive Status where
  | ok
  | notFound (msg : String)
  | busy (msg : String)
  | corruption (msg : String)
  | ioError (msg : String)
  | shutdownInProgress
  | aborted (msg : String)
deriving DecidableEq, Repr

/-- `Status::ok()`. -/
def Status.isOk : Status → Bool
  | .ok => true
  | _ => false

/-- `Status::IsNotFound()`. -/
def Status.isNotFound : Status → Bool
  | .notFound _ => true
  | _ => false

/-- `Status::IsBusy()`. -/
def Status.isBusy : Status → Bool
  | .busy _ => true
  | _ => false

/-- `BlobHandle`: position of one record inside a blob file.  `order` is the
zero-based ordinal of the record within the file (used as bitset index). -/
structure BlobHandle where
  offset : Nat
  size : Nat
  order : Nat
deriving DecidableEq, Repr

/-- `BlobIndex`: the LSM-resident pointer to an externally stored value.
Two blob indices compare equal iff all fields match (derived equality). -/
structure BlobIndex where
  file_number : Nat
  blob_handle : BlobHandle
deriving DecidableEq, Repr

/-- `BlobIndex()` default value: the sentinel "empty" index used by fallback
mode (all fields zero). -/
def emptyBlobIndex : BlobIndex := ⟨0, ⟨0, 0, 0⟩⟩

instance {α β : Type} [DecidableEq α] [DecidableEq β] : DecidableEq (Except α β)
  | .error a, .error b =>
    if h : a = b then .isTrue (by rw [h]) else .isFalse (fun hc => h (Except.error.inj hc))
  | .error _, .ok _ => .isFalse (fun hc => Except.noConfusion hc)
  | .ok _, .error _ => .isFalse (fun hc => Except.noConfusion hc)
  | .ok a, .ok b =>
    if h : a = b then .isTrue (by rw [h]) else .isFalse (fun hc => h (Except.ok.inj hc))

/-- The pinned `index_entry` slice a point lookup returns: its byte size and
the result of `BlobIndex::DecodeFrom` on it (decoding is external code,
so its outcome is environment data). -/
structure IndexEntry where
  size : Nat
  decoded : Except Status BlobIndex
deriving DecidableEq, Repr

/-- Outcome of `DBImpl::GetImpl` with `GetImplOptions` as the GC job uses it:
the lookup preserves the `is_blob_index` flag and (with `return_level`)
reports the LSM level of the key.  The whole record is environment data. -/
structure GetImplOut where
  status : Status
  is_blob_index : Bool
  entry : IndexEntry
  level : Int
deriving DecidableEq, Repr

/-- `BlobGCJob::GarbageCollectionWriteCallback::Callback` (source lines
29-63), as a function of the commit-time lookup outcome `gout` and the
callback's saved `blob_index_`.  Returns the status the callback hands back
to `WriteWithCallback`. -/
def Callback (gout : GetImplOut) (blob_index_ : BlobIndex) : Status :=
  let s := gout.status
  if ¬ s.isOk ∧ ¬ s.isNotFound then s
  else
    let s := if s.isNotFound then Status.busy "key deleted"
             else if ¬ gout.is_blob_index then
               Status.busy "key overwritten with other value"
             else s
    if s.isOk then
      match gout.entry.decoded with
      | .error e => e
      | .ok other_blob_index =>
          if blob_index_ = other_blob_index then Status.ok
          else Status.busy "key overwritten with other blob"
    else s

/-- Per-input-file metadata as the GC job consumes it.  `isLiveData` is the
liveness-bitset query `BlobFileMeta::IsLiveData` (external to this source
file).  Modelled from the spec: §4.2 "Operation `IsLive(order) -> bool`";
bit clear means the record is authoritatively dead. -/
structure BlobFileMeta where
  file_number : Nat
  isLiveData : Nat → Bool

/-- `BlobGCJob::DiscardEntryWithBitset` (source lines 578-601): find the
input file whose number matches the scanned blob index (first match wins,
as in the `for`/`break` loop); a miss is a `NotFound` status; otherwise the
record is discardable iff its liveness bit is clear. -/
def DiscardEntryWithBitset (inputs : List BlobFileMeta) (blob_index : BlobIndex) :
    Except Status Bool :=
  match inputs.find? (fun f => f.file_number == blob_index.file_number) with
  | none => .error (.notFound "Blob file meta not found")
  | some file => .ok (! file.isLiveData blob_index.blob_handle.order)

/-- `BlobGCJob::DiscardEntry` (source lines 603-640): LSM point lookup with
`return_level`; any status other than OK/NotFound is returned as-is;
NotFound or a non-blob-index value makes the record discardable; a decode
failure is returned; otherwise the record is discardable iff the decoded
blob index differs from the scanned one.  The returned pair is
`(discardable, level)`, with `level` taken from the lookup. -/
def DiscardEntry (gout : GetImplOut) (blob_index : BlobIndex) :
    Except Status (Bool × Int) :=
  let level := gout.level
  if ¬ gout.status.isOk ∧ ¬ gout.status.isNotFound then .error gout.status
  else if gout.status.isNotFound ∨ ¬ gout.is_blob_index then .ok (true, level)
  else
    match gout.entry.decoded with
    | .error e => .error e
    | .ok other_blob_index => .ok (decide (¬ blob_index = other_blob_index), level)

/-- The two-level classification performed per tuple by the scan loop
(source lines 250-263): bitset check first; only when the bit is set does
the LSM lookup (`DiscardEntry`) run.  `level` stays `-1` on the bitset
fast path, exactly as in the loop's local `int level = -1`. -/
def classifyTuple (inputs : List BlobFileMeta) (gout : GetImplOut)
    (blob_index : BlobIndex) : Except Status (Bool × Int) :=
  match DiscardEntryWithBitset inputs blob_index with
  | .error e => .error e
  | .ok true => .ok (true, -1)
  | .ok false => DiscardEntry gout blob_index

/-- The slice of `TitanCFOptions` the scan loop reads. -/
structure TitanCFOptions where
  blob_run_mode_fallback : Bool
  rewrite_shadow : Bool
  blob_file_target_size : Nat
  shadow_target_size : Nat
deriving DecidableEq, Repr

/-- One `(user_key, blob_index, value)` tuple yielded by the merged
blob-file iterator. -/
structure GCTuple where
  key : String
  blob_index : BlobIndex
  value : String
deriving DecidableEq, Repr

/-- An output blob file under construction: the paired
`(BlobFileHandle, BlobFileBuilder)` of the source, reduced to the file
number and the records added so far. -/
structure OutFile where
  file_number : Nat
  records : List GCTuple
deriving DecidableEq, Repr

/-- A per-level shadow `TableBuilder`: its file number and the
`(user_key, new_blob_index)` entries added. -/
structure ShadowB where
  shadow_number : Nat
  entries : List (String × BlobIndex)
deriving DecidableEq, Repr

/-- A rewrite batch enqueued by the scan (`rewrite_batches_` element):
the callback's key, saved old blob index and new blob index.  In fallback
mode the new index is `emptyBlobIndex`. -/
structure PendingBatch where
  key : String
  old_index : BlobIndex
  new_index : BlobIndex
deriving DecidableEq, Repr

/-- Environment of `BlobGCJob::DoRunGC`: the GC inputs, the option slice,
the LSM point-lookup oracle (outcome per user key, fixed for the scan),
and the shutdown flag (modelled as constant over the scan). -/
structure GCEnv where
  opts : TitanCFOptions
  inputs : List BlobFileMeta
  lsm : String → GetImplOut
  shutting_down : Bool

/-- Mutable state of the `DoRunGC` scan loop. -/
structure GCState where
  last_key : String
  last_key_is_fresh : Bool
  file_size : Nat
  cur_file : Option OutFile
  outputs : List OutFile
  next_file_number : Nat
  shadow_slots : List (Option ShadowB)
  next_shadow_number : Nat
  batches : List PendingBatch
  total_count : Nat
  valid_count : Nat
  discardable_count : Nat
  m_bytes_read_blob : Nat
  m_keys_overwritten_check : Nat
  m_bytes_overwritten_check : Nat
deriving DecidableEq, Repr

/-- Loop state at `DoRunGC` entry; `level_shadow_builders.resize(7)` gives
seven empty shadow slots. -/
def initGCState : GCState where
  last_key := ""
  last_key_is_fresh := false
  file_size := 0
  cur_file := none
  outputs := []
  next_file_number := 1
  shadow_slots := List.replicate 7 none
  next_shadow_number := 1
  batches := []
  total_count := 0
  valid_count := 0
  discardable_count := 0
  m_bytes_read_blob := 0
  m_keys_overwritten_check := 0
  m_bytes_overwritten_check := 0

/-- The fixed capacity of `level_shadow_builders` (source line 211:
`level_shadow_builders.resize(7)`). -/
def levelShadowSlots : Nat := 7

/-- Result of one scan-loop iteration: `continue` with the new state, or
leave the loop with a status (`break` / the C++ `continue` after a fatal
status is modelled as the loop-exit it causes). -/
inductive StepRes where
  | cont (st : GCState)
  | stop (st : GCState) (s : Status)
deriving DecidableEq, Repr

/-- The "record goes into a per-level shadow builder" branch of the scan
loop (source lines 367-388).  The C++ indexes `level_shadow_builders` with
`level` unchecked; an out-of-range level (including `-1`) is undefined
behaviour in the source and is modelled as a distinguished loop exit.
`OpenGCOutputShadow` and the shadow builder's `Finish` are modelled as
succeeding; `EstimatedFileSize` is abstracted to the entry count (the
shadow roll threshold is in the same abstract unit). -/
def shadowPath (env : GCEnv) (st : GCState) (t : GCTuple) (newIdx : BlobIndex)
    (level : Int) : StepRes :=
  if 0 ≤ level ∧ level < (levelShadowSlots : Int) then
    let i := level.toNat
    let withB : ShadowB → GCState → StepRes := fun b st =>
      let b := { b with entries := b.entries ++ [(t.key, newIdx)] }
      if env.opts.shadow_target_size ≤ b.entries.length then
        .cont { st with shadow_slots := st.shadow_slots.set i none }
      else
        .cont { st with shadow_slots := st.shadow_slots.set i (some b) }
    match st.shadow_slots.getD i none with
    | some b => withB b st
    | none =>
        withB ⟨st.next_shadow_number, []⟩
          { st with next_shadow_number := st.next_shadow_number + 1 }
  else
    .stop st (.aborted "shadow level out of range")

/-- The "rewrite entry to new blob file" part of the scan loop (source
lines 293-396): roll/open logic on `file_size` (note the source never
increases `file_size`), record append, then either the shadow path or a
rewrite batch via `BatchWriteNewIndices`.  The new blob index carries the
current output file's number and the record's ordinal; its encoded offset
is abstracted to 0 and its size to `BlobRecord::size()` modelled as
`key.length + value.length`. -/
def rewriteToBlob (env : GCEnv) (st : GCState) (t : GCTuple) (level : Int) :
    StepRes :=
  let needNew := st.cur_file.isNone ||
    decide (env.opts.blob_file_target_size ≤ st.file_size)
  let st :=
    if env.opts.blob_file_target_size ≤ st.file_size then
      match st.cur_file with
      | some f => { st with outputs := st.outputs ++ [f], cur_file := none }
      | none => st
    else st
  let st :=
    if needNew then
      { st with cur_file := some ⟨st.next_file_number, []⟩,
                next_file_number := st.next_file_number + 1,
                file_size := 0 }
    else st
  match st.cur_file with
  | none => .stop st (.aborted "no open blob file")
  | some f =>
      let recSize := t.key.length + t.value.length
      let newIdx : BlobIndex := ⟨f.file_number, ⟨0, recSize, f.records.length⟩⟩
      let st := { st with cur_file := some { f with records := f.records ++ [t] } }
      if env.opts.rewrite_shadow then shadowPath env st t newIdx level
      else .cont { st with batches := st.batches ++ [⟨t.key, t.blob_index, newIdx⟩] }

/-- Classification and rewrite of one candidate tuple (the scan-loop body
after the duplicate-key check, source lines 250-396). -/
def processTuple (env : GCEnv) (st : GCState) (t : GCTuple) : StepRes :=
  match classifyTuple env.inputs (env.lsm t.key) t.blob_index with
  | .error e => .stop st e
  | .ok (true, _) =>
      .cont { st with
        m_keys_overwritten_check := st.m_keys_overwritten_check + 1,
        m_bytes_overwritten_check :=
          st.m_bytes_overwritten_check + t.blob_index.blob_handle.size,
        discardable_count := st.discardable_count + 1 }
  | .ok (false, level) =>
      let st := { st with valid_count := st.valid_count + 1,
                          last_key_is_fresh := true }
      if env.opts.blob_run_mode_fallback then
        .cont { st with batches :=
          st.batches ++ [⟨t.key, t.blob_index, emptyBlobIndex⟩] }
      else
        rewriteToBlob env st t level

/-- One iteration of the `DoRunGC` scan loop (source lines 228-397):
counter bump, shutdown poll, blob-read metric, duplicate-key skip logic,
then `processTuple`. -/
def scanStep (env : GCEnv) (st : GCState) (t : GCTuple) : StepRes :=
  let st := { st with total_count := st.total_count + 1 }
  if env.shutting_down then .stop st .shutdownInProgress
  else
    let st := { st with m_bytes_read_blob :=
      st.m_bytes_read_blob + t.blob_index.blob_handle.size }
    if st.last_key ≠ "" ∧ t.key = st.last_key then
      if st.last_key_is_fresh then .cont st
      else processTuple env st t
    else
      processTuple env
        { st with last_key := t.key, last_key_is_fresh := false } t

/-- The scan loop folded over the iterator's tuple sequence. -/
def runScanAux (env : GCEnv) (st : GCState) : List GCTuple → GCState × Status
  | [] => (st, .ok)
  | t :: rest =>
      match scanStep env st t with
      | .cont st2 => runScanAux env st2 rest
      | .stop st2 s => (st2, s)

/-- `BlobGCJob::DoRunGC` (source lines 188-445): run the scan loop over the
merged iterator's yield (given as a list; the iterator's own terminal
status is modelled OK — no claim is about blob-file read errors), push the
still-open output builder on success, then in shadow mode finish every
still-open per-level shadow builder (each `Finish` modelled OK, and note
the source re-assigns the loop status `s` from these calls). -/
def DoRunGC (env : GCEnv) (tuples : List GCTuple) : GCState × Status :=
  let (st, s) := runScanAux env initGCState tuples
  let st :=
    if s.isOk then
      match st.cur_file with
      | some f => { st with outputs := st.outputs ++ [f], cur_file := none }
      | none => st
    else st
  if env.opts.rewrite_shadow then
    let s2 := if st.shadow_slots.any (fun b => b.isSome) then Status.ok else s
    ({ st with shadow_slots := List.replicate 7 none }, s2)
  else (st, s)

/-- Externally visible actions of `BlobGCJob::Finish`, in program order:
the `BatchFinishFiles` publish call, the `BatchDeleteFiles` cleanup call,
each `WriteWithCallback` application (by batch position), the shadow
install, the WAL sync, and the manifest edit of `DeleteInputBlobFiles`. -/
inductive GCEvent where
  | installFiles (fns : List Nat)
  | deleteFiles (fns : List Nat)
  | applyRewrite (i : Nat)
  | installShadows
  | flushWAL
  | obsoleteEdit (fns : List Nat)
deriving DecidableEq, Repr

/-- A rewrite batch as `RewriteValidKeyToLSM` consumes it: the data saved by
the callback plus the commit-time outcome of `WriteWithCallback` (decided
by the concurrent LSM, hence environment data) and the callback's
`read_bytes`.  `old_index.blob_handle.size` is the callback's
`blob_record_size()`. -/
structure RewriteBatchM where
  key : String
  old_index : BlobIndex
  new_index : BlobIndex
  write_result : Status
  read_bytes : Nat
deriving DecidableEq, Repr

/-- The `dropped` accumulator of `RewriteValidKeyToLSM`:
`blob_file_number -> (dropped_size, set of orders)`, as an association
list; sizes add on every Busy, orders deduplicate (`std::set`). -/
def addDropped (d : List (Nat × Nat × List Nat)) (fn sz ord : Nat) :
    List (Nat × Nat × List Nat) :=
  match d with
  | [] => [(fn, sz, [ord])]
  | (f, s, os) :: rest =>
      if f = fn then (f, s + sz, if ord ∈ os then os else os ++ [ord]) :: rest
      else (f, s, os) :: addDropped rest fn sz ord

/-- Accumulators of the `RewriteValidKeyToLSM` loop: the metrics counters it
feeds, the `dropped` map, the events emitted, and the position of the next
batch. -/
structure RewriteAcc where
  keys_overwritten_callback : Nat
  bytes_overwritten_callback : Nat
  keys_relocated : Nat
  bytes_relocated : Nat
  keys_fallback : Nat
  bytes_fallback : Nat
  bytes_read_callback : Nat
  dropped : List (Nat × Nat × List Nat)
  events : List GCEvent
  idx : Nat
deriving DecidableEq, Repr

/-- Empty rewrite accumulator. -/
def rewriteAcc0 : RewriteAcc :=
  { keys_overwritten_callback := 0, bytes_overwritten_callback := 0,
    keys_relocated := 0, bytes_relocated := 0,
    keys_fallback := 0, bytes_fallback := 0,
    bytes_read_callback := 0, dropped := [], events := [], idx := 0 }

/-- The per-batch loop of `BlobGCJob::RewriteValidKeyToLSM` (source lines
784-822): column-family-drop and shutdown polls (modelled as constants),
`WriteWithCallback`, then OK / Busy / fatal branches.  `s` carries the
status of the last processed batch, exactly as the C++ local. -/
def rewriteAux (cf_dropped shutdown : Bool) (acc : RewriteAcc) (s : Status) :
    List RewriteBatchM → RewriteAcc × Status
  | [] => (acc, s)
  | b :: rest =>
      if cf_dropped then (acc, .aborted "Column family drop")
      else if shutdown then (acc, .shutdownInProgress)
      else
        let acc := { acc with events := acc.events ++ [.applyRewrite acc.idx],
                              idx := acc.idx + 1 }
        let s := b.write_result
        if s.isOk then
          let acc :=
            if 0 < b.new_index.blob_handle.size then
              { acc with keys_relocated := acc.keys_relocated + 1,
                         bytes_relocated :=
                           acc.bytes_relocated + b.old_index.blob_handle.size }
            else
              { acc with keys_fallback := acc.keys_fallback + 1,
                         bytes_fallback :=
                           acc.bytes_fallback + b.old_index.blob_handle.size }
          rewriteAux cf_dropped shutdown
            { acc with bytes_read_callback :=
                acc.bytes_read_callback + b.read_bytes } s rest
        else if s.isBusy then
          let acc :=
            { acc with
              keys_overwritten_callback := acc.keys_overwritten_callback + 1,
              bytes_overwritten_callback :=
                acc.bytes_overwritten_callback + b.old_index.blob_handle.size,
              dropped := addDropped acc.dropped b.new_index.file_number
                b.new_index.blob_handle.size b.new_index.blob_handle.order }
          rewriteAux cf_dropped shutdown
            { acc with bytes_read_callback :=
                acc.bytes_read_callback + b.read_bytes } s rest
        else (acc, s)

/-- Per-file metadata mutated by the dropped-bit accounting: liveness
bitset and live data size (`Int`, since `UpdateLiveDataSize` takes a signed
delta). -/
structure FileM where
  file_number : Nat
  live_data_size : Int
  bitset : List Bool
deriving DecidableEq, Repr

/-- The blob storage of the job's column family: its files and a counter of
`ComputeGCScore` calls (the score refresh is modelled by counting it). -/
structure StorageM where
  files : List FileM
  gc_score_recomputes : Nat
deriving DecidableEq, Repr

/-- Clear the liveness bits at the given orders
(`file->SetLiveDataBitset(order, false)` per order). -/
def clearOrders (bs : List Bool) : List Nat → List Bool
  | [] => bs
  | o :: rest => clearOrders (bs.set o false) rest

/-- Update the first file with the given number (`FindFile`). -/
def updateFile (fs : List FileM) (fn : Nat) (g : FileM → FileM) : List FileM :=
  match fs with
  | [] => []
  | f :: rest =>
      if f.file_number = fn then g f :: rest
      else f :: updateFile rest fn g

/-- The mutex-held accounting for one `dropped` entry (source lines
829-851): if the file is found, clear the indicated bits, subtract the
dropped bytes from `live_data_size`, and recompute the GC score; a missing
file is only logged. -/
def applyOneDropped (st : StorageM) (fn sz : Nat) (orders : List Nat) :
    StorageM :=
  if st.files.any (fun f => f.file_number == fn) then
    { files := updateFile st.files fn (fun f =>
        { f with bitset := clearOrders f.bitset orders,
                 live_data_size := f.live_data_size - (sz : Int) }),
      gc_score_recomputes := st.gc_score_recomputes + 1 }
  else st

/-- The whole mutex-held section: fold `applyOneDropped` over `dropped`. -/
def applyDropped (st : StorageM) : List (Nat × Nat × List Nat) → StorageM
  | [] => st
  | (fn, sz, os) :: rest => applyDropped (applyOneDropped st fn sz os) rest

/-- `BlobGCJob::RewriteValidKeyToLSM` (source lines 772-860): the batch
loop, the Busy-to-OK downgrade after it, the mutex-held dropped
accounting, and the final `FlushWAL(true)` (its outcome is environment
data) when the status is OK. -/
def RewriteValidKeyToLSM (cf_dropped shutdown : Bool)
    (batches : List RewriteBatchM) (flush_wal : Status) (storage : StorageM) :
    RewriteAcc × Status × StorageM :=
  let (acc, s) := rewriteAux cf_dropped shutdown rewriteAcc0 .ok batches
  let s := if s.isBusy then Status.ok else s
  let storage := applyDropped storage acc.dropped
  if s.isOk then
    ({ acc with events := acc.events ++ [.flushWAL] }, flush_wal, storage)
  else (acc, s, storage)

/-- One entry of `blob_file_builders_` at `Finish` time.  `finish_result`
is the combined outcome of `builder->Finish(&contexts)` followed by
`BatchWriteNewIndices(contexts, &s)`: on success it yields the rewrite
batches built from the flushed contexts, on failure the first non-OK
status (both failure sources break the install loop identically; batches
appended before an in-loop failure are never applied, since install then
fails). -/
structure BuilderM where
  file_number : Nat
  finish_result : Except Status (List RewriteBatchM)

/-- The builder loop of `InstallOutputBlobFiles` (source lines 709-731),
accumulating finished file numbers and the extra rewrite batches. -/
def installAux (acc_fns : List Nat) (acc_bs : List RewriteBatchM) :
    List BuilderM → List Nat × List RewriteBatchM × Status
  | [] => (acc_fns, acc_bs, .ok)
  | b :: rest =>
      match b.finish_result with
      | .ok bs => installAux (acc_fns ++ [b.file_number]) (acc_bs ++ bs) rest
      | .error e => (acc_fns, acc_bs, e)

/-- `BlobGCJob::InstallOutputBlobFiles` (source lines 702-770): when every
builder finishes, `BatchFinishFiles` publishes the files (its outcome is
environment data and becomes the returned status); when a builder fails,
`BatchDeleteFiles` is called on the handles collected from the builder
list and the loop's error is returned.  Note: the delete branch is the
`else` of the builder loop's status — a `BatchFinishFiles` failure does
NOT reach it.  Returns (status, events, extra rewrite batches). -/
def InstallOutputBlobFiles (builders : List BuilderM) (batch_finish : Status) :
    Status × List GCEvent × List RewriteBatchM :=
  match installAux [] [] builders with
  | (fns, bs, .ok) => (batch_finish, [.installFiles fns], bs)
  | (_, bs, e) => (e, [.deleteFiles (builders.map (fun b => b.file_number))], bs)

/-- Environment of `BlobGCJob::Finish`: everything the install/commit
phase consumes. -/
structure FinishEnv where
  builders : List BuilderM
  batch_finish : Status
  scan_batches : List RewriteBatchM
  rewrite_shadow : Bool
  cf_dropped : Bool
  shutting_down : Bool
  flush_wal : Status
  storage : StorageM
  input_fns : List Nat
  input_obsolete : Nat → Bool
  log_and_apply : Status

/-- Result of `Finish`: final status, the ordered trace of external
actions, the rewrite accumulators, and the blob storage after the
dropped-bit accounting. -/
structure FinishOut where
  status : Status
  events : List GCEvent
  acc : RewriteAcc
  storage : StorageM

/-- `BlobGCJob::DeleteInputBlobFiles` (source lines 862-886) composed with
its guard in `Finish` (line 682): when the status is OK and the column
family is not dropped, a manifest edit deletes every input file not
already obsolete; the edit's `LogAndApply` outcome is environment data. -/
def finishTail (env : FinishEnv) (s : Status) (evs : List GCEvent)
    (acc : RewriteAcc) (storage : StorageM) : FinishOut :=
  if s.isOk ∧ ¬ env.cf_dropped then
    { status := env.log_and_apply,
      events := evs ++
        [.obsoleteEdit (env.input_fns.filter (fun n => ! env.input_obsolete n))],
      acc := acc, storage := storage }
  else { status := s, events := evs, acc := acc, storage := storage }

/-- `BlobGCJob::Finish` (source lines 645-692): install the output blob
files; on success either rewrite the valid keys into the LSM
(`rewrite_shadow` unset) or install the shadow SSTs (`InstallOutputShadows`
returns OK); then, when still OK and the column family is alive, mark the
input files obsolete.  On install failure everything after step 1 is
skipped and the step-1 status is returned. -/
def Finish (env : FinishEnv) : FinishOut :=
  let (s1, ev1, extra) := InstallOutputBlobFiles env.builders env.batch_finish
  if s1.isOk then
    if env.rewrite_shadow then
      finishTail env .ok (ev1 ++ [.installShadows]) rewriteAcc0 env.storage
    else
      let (acc, s2, storage) := RewriteValidKeyToLSM env.cf_dropped
        env.shutting_down (env.scan_batches ++ extra) env.flush_wal env.storage
      finishTail env s2 (ev1 ++ acc.events) acc storage
  else
    { status := s1, events := ev1, acc := rewriteAcc0, storage := env.storage }

/-- A concrete input-file meta used by witnesses: file 3, whose only live
record is the one at order 1. -/
def demoMeta : BlobFileMeta := ⟨3, fun o => o == 1⟩

/-- A concrete scan environment used by witnesses: one input file, an LSM
in which every key is missing, normal run mode, no shadow rewrite. -/
def demoEnv : GCEnv where
  opts := { blob_run_mode_fallback := false, rewrite_shadow := false,
            blob_file_target_size := 10, shadow_target_size := 100 }
  inputs := [demoMeta]
  lsm := fun _ => ⟨.notFound "nf", false, ⟨0, .error (.corruption "x")⟩, -1⟩
  shutting_down := false

/-- A concrete Finish environment in which every step succeeds: one output
builder (file 7) with no leftover contexts, one rewrite batch that commits
OK, one input file (number 3). -/
def demoFinishEnv : FinishEnv where
  builders := [⟨7, .ok []⟩]
  batch_finish := .ok
  scan_batches := [⟨"k", ⟨3, ⟨0, 7, 0⟩⟩, ⟨7, ⟨0, 5, 0⟩⟩, .ok, 3⟩]
  rewrite_shadow := false
  cf_dropped := false
  shutting_down := false
  flush_wal := .ok
  storage := ⟨[⟨7, 5, [true]⟩], 0⟩
  input_fns := [3]
  input_obsolete := fun _ => false
  log_and_apply := .ok

/-- `demoFinishEnv` with a failing `BatchFinishFiles` publish. -/
def pubFailEnv : FinishEnv :=
  { demoFinishEnv with batch_finish := .ioError "publish failed" }

/-- `demoFinishEnv` with a failing builder `Finish`. -/
def builderFailEnv : FinishEnv :=
  { demoFinishEnv with builders := [⟨7, .error (.ioError "finish failed")⟩] }

/-- `demoFinishEnv` with every rewrite batch losing its race (two Busy
batches targeting output file 7, orders 0 and 1). -/
def allBusyEnv : FinishEnv :=
  { demoFinishEnv with
    scan_batches := [⟨"k", ⟨3, ⟨0, 7, 0⟩⟩, ⟨7, ⟨0, 5, 0⟩⟩, .busy "key deleted", 3⟩,
                     ⟨"l", ⟨3, ⟨7, 9, 1⟩⟩, ⟨7, ⟨5, 6, 1⟩⟩,
                      .busy "key overwritten with other blob", 4⟩],
    storage := ⟨[⟨7, 11, [true, true]⟩], 0⟩ }

/-- Keys of the rewrite batches enqueued so far. -/
def batchKeys (st : GCState) : List String := st.batches.map (fun b => b.key)

/-- Keys of the records written to output blob files so far (finished
output files first, then the open one), in write order. -/
def outRecordKeys (st : GCState) : List String :=
  (st.outputs.map (fun f => f.records.map (fun r => r.key))).join ++
  (match st.cur_file with
   | some f => f.records.map (fun r => r.key)
   | none => [])

/-- The scan loop's duplicate-skip condition (source line 238-239): the
tuple's key equals the non-empty `last_key` and `last_key_is_fresh`. -/
def skipCond (st : GCState) (t : GCTuple) : Prop :=
  st.last_key ≠ "" ∧ t.key = st.last_key ∧ st.last_key_is_fresh = true

/-- Collapse adjacent duplicates. -/
def dedupAdj : List String → List String
  | [] => []
  | [a] => [a]
  | a :: b :: rest =>
      if a = b then dedupAdj (b :: rest) else a :: dedupAdj (b :: rest)

/-- A key sequence is grouped when equal keys are adjacent: collapsing
adjacent duplicates leaves no duplicate (the merged iterator yields keys
in order, so all versions of a user key are adjacent). -/
def Grouped (l : List String) : Prop := (dedupAdj l).Nodup

/-- Blob index of the first 12-byte demo record in input file 1. -/
def bigIdx1 : BlobIndex := ⟨1, ⟨0, 12, 0⟩⟩

/-- Blob index of the second 12-byte demo record in input file 1. -/
def bigIdx2 : BlobIndex := ⟨1, ⟨12, 12, 1⟩⟩

/-- First demo record: 6-byte key, 6-byte value. -/
def bigT1 : GCTuple := ⟨"aaaaaa", bigIdx1, "vvvvvv"⟩

/-- Second demo record: 6-byte key, 6-byte value. -/
def bigT2 : GCTuple := ⟨"bbbbbb", bigIdx2, "wwwwww"⟩

/-- Scan environment for the output-rolling test: `blob_file_target_size`
10 bytes, both demo records live (bit set, and the LSM returns the very
same blob index at level 1). -/
def rollEnv : GCEnv where
  opts := { blob_run_mode_fallback := false, rewrite_shadow := false,
            blob_file_target_size := 10, shadow_target_size := 100 }
  inputs := [⟨1, fun _ => true⟩]
  lsm := fun k =>
    if k = "aaaaaa" then ⟨.ok, true, ⟨10, .ok bigIdx1⟩, 1⟩
    else if k = "bbbbbb" then ⟨.ok, true, ⟨10, .ok bigIdx2⟩, 1⟩
    else ⟨.notFound "nf", false, ⟨0, .error (.corruption "x")⟩, -1⟩
  shutting_down := false

/-- `rollEnv` in shadow-rewrite mode (first record lives at level 2; the
shadow roll threshold is high, so its builder stays open). -/
def shadowEnv : GCEnv where
  opts := { blob_run_mode_fallback := false, rewrite_shadow := true,
            blob_file_target_size := 1000, shadow_target_size := 100 }
  inputs := [⟨1, fun _ => true⟩]
  lsm := fun k =>
    if k = "aaaaaa" then ⟨.ok, true, ⟨10, .ok bigIdx1⟩, 2⟩
    else ⟨.notFound "nf", false, ⟨0, .error (.corruption "x")⟩, -1⟩
  shutting_down := false

/-- A tuple whose blob index names file 99, which is in no input set used
by the demos. -/
def badTuple : GCTuple := ⟨"cccccc", ⟨99, ⟨0, 5, 0⟩⟩, "zz"⟩

/-- Phase rank of a `Finish` action: install-or-delete calls (0), LSM
rewrites and the shadow install (1), the WAL sync (2), the obsoleting
manifest edit (3).  Used to state the happens-before ordering. -/
def evRank : GCEvent → Nat
  | .installFiles _ => 0
  | .deleteFiles _ => 0
  | .applyRewrite _ => 1
  | .installShadows => 1
  | .flushWAL => 2
  | .obsoleteEdit _ => 3

/-- Every `p`-event strictly precedes every `q`-event in the trace `l`. -/
def beforeAll (p q : GCEvent → Prop) (l : List GCEvent) : Prop :=
  ∀ (i j : Nat) (ei ej : GCEvent), l[i]? = some ei → l[j]? = some ej →
    p ei → q ej → i < j

/-- The event is the `BatchFinishFiles` publish call. -/
def evIsInstall (e : GCEvent) : Prop := ∃ fns, e = .installFiles fns

/-- The event is a `WriteWithCallback` application. -/
def evIsApply (e : GCEvent) : Prop := ∃ i, e = .applyRewrite i

/-- The event is the WAL sync. -/
def evIsWAL (e : GCEvent) : Prop := e = .flushWAL

/-- The event is the manifest edit marking inputs obsolete. -/
def evIsObsolete (e : GCEvent) : Prop := ∃ fns, e = .obsoleteEdit fns

/-! ## Theorems -/

theorem rank0_clean (e : GCEvent) (h : evRank e = 0) :
    (∀ i, e ≠ .applyRewrite i) ∧ e ≠ .flushWAL ∧
    (∀ fns, e ≠ .obsoleteEdit fns) := by
  cases e <;> simp_all [evRank]

/-- C1: for every rewrite batch, the commit-time write callback re-reads
the batch's user key (the lookup outcome `gout` preserves the
`is_blob_index` flag) and returns Busy("key deleted") when the key is
missing; Busy("key overwritten with other value") when a value exists but
is not a blob index; Busy("key overwritten with other blob") when a blob
index decodes but differs from the saved one; OK when it equals the saved
one in all fields; the decode error on a decode failure; and any lookup
error other than NotFound as-is. -/
theorem callback_decision (gout : GetImplOut) (bi : BlobIndex) :
    (gout.status.isNotFound = true → Callback gout bi = .busy "key deleted") ∧
    (gout.status = .ok → gout.is_blob_index = false →
      Callback gout bi = .busy "key overwritten with other value") ∧
    (∀ e, gout.status = .ok → gout.is_blob_index = true →
      gout.entry.decoded = .error e → Callback gout bi = e) ∧
    (∀ other, gout.status = .ok → gout.is_blob_index = true →
      gout.entry.decoded = .ok other → other ≠ bi →
      Callback gout bi = .busy "key overwritten with other blob") ∧
    (∀ other, gout.status = .ok → gout.is_blob_index = true →
      gout.entry.decoded = .ok other → other = bi → Callback gout bi = .ok) ∧
    (gout.status.isOk = false → gout.status.isNotFound = false →
      Callback gout bi = gout.status) := by
  obtain ⟨s, ib, ⟨esz, edec⟩, lvl⟩ := gout
  refine ⟨?_, ?_, ?_, ?_, ?_, ?_⟩
  · intro h
    cases s <;> simp_all [Callback, Status.isOk, Status.isNotFound, Status.isBusy]
  · intro hs hib
    subst hs hib
    simp [Callback, Status.isOk, Status.isNotFound, Status.isBusy]
  · intro e hs hib hd
    subst hs hib
    simp_all [Callback, Status.isOk, Status.isNotFound, Status.isBusy]
  · intro other hs hib hd hne
    subst hs hib
    have hne2 : ¬ bi = other := fun hh => hne hh.symm
    simp_all [Callback, Status.isOk, Status.isNotFound, Status.isBusy]
  · intro other hs hib hd heq
    subst hs hib heq
    simp_all [Callback, Status.isOk, Status.isNotFound, Status.isBusy]
  · intro h1 h2
    cases s <;> simp_all [Callback, Status.isOk, Status.isNotFound]

/-- Witness for `callback_decision`: the five decision rows evaluated at
concrete lookup outcomes. -/
theorem callback_decision_witness :
    Callback ⟨.notFound "nf", false, ⟨0, .error (.corruption "c")⟩, -1⟩
        emptyBlobIndex = .busy "key deleted" ∧
    Callback ⟨.ok, false, ⟨4, .ok emptyBlobIndex⟩, 2⟩ emptyBlobIndex =
        .busy "key overwritten with other value" ∧
    Callback ⟨.ok, true, ⟨4, .error (.corruption "bad index")⟩, 2⟩
        emptyBlobIndex = .corruption "bad index" ∧
    Callback ⟨.ok, true, ⟨4, .ok ⟨5, ⟨1, 2, 3⟩⟩⟩, 2⟩ emptyBlobIndex =
        .busy "key overwritten with other blob" ∧
    Callback ⟨.ok, true, ⟨4, .ok emptyBlobIndex⟩, 2⟩ emptyBlobIndex = .ok ∧
    Callback ⟨.ioError "io", false, ⟨0, .ok emptyBlobIndex⟩, 2⟩
        emptyBlobIndex = .ioError "io" :=
  ⟨(callback_decision _ _).1 rfl,
   (callback_decision _ _).2.1 rfl rfl,
   (callback_decision _ _).2.2.1 _ rfl rfl rfl,
   (callback_decision _ _).2.2.2.1 _ rfl rfl rfl (by decide),
   (callback_decision _ _).2.2.2.2.1 _ rfl rfl rfl rfl,
   (callback_decision _ _).2.2.2.2.2 rfl rfl⟩

/-- C3: classification of the newest version of a key is two-level.  When
the source file's liveness bit at the record's order is clear, the tuple
is discardable with no LSM lookup (the conclusion holds for every lookup
outcome, and the loop's `level` stays `-1`).  Otherwise the LSM lookup
decides: NotFound or a non-blob-index value gives discardable; a decoded
blob index differing from the scanned one gives discardable; an exactly
equal one gives live, remembering the returned level. -/
theorem classify_two_level (inputs : List BlobFileMeta) (gout : GetImplOut)
    (bi : BlobIndex) (f : BlobFileMeta)
    (hf : inputs.find? (fun g => g.file_number == bi.file_number) = some f) :
    (f.isLiveData bi.blob_handle.order = false →
      ∀ gout2, classifyTuple inputs gout2 bi = .ok (true, -1)) ∧
    (f.isLiveData bi.blob_handle.order = true → gout.status.isNotFound = true →
      classifyTuple inputs gout bi = .ok (true, gout.level)) ∧
    (f.isLiveData bi.blob_handle.order = true → gout.status = .ok →
      gout.is_blob_index = false →
      classifyTuple inputs gout bi = .ok (true, gout.level)) ∧
    (∀ other, f.isLiveData bi.blob_handle.order = true → gout.status = .ok →
      gout.is_blob_index = true → gout.entry.decoded = .ok other →
      other ≠ bi → classifyTuple inputs gout bi = .ok (true, gout.level)) ∧
    (f.isLiveData bi.blob_handle.order = true → gout.status = .ok →
      gout.is_blob_index = true → gout.entry.decoded = .ok bi →
      classifyTuple inputs gout bi = .ok (false, gout.level)) := by
  obtain ⟨s, ib, ⟨esz, edec⟩, lvl⟩ := gout
  refine ⟨?_, ?_, ?_, ?_, ?_⟩
  · intro hbit gout2
    simp [classifyTuple, DiscardEntryWithBitset, hf, hbit]
  · intro hbit hnf
    cases s <;> simp_all [classifyTuple, DiscardEntryWithBitset, DiscardEntry,
      Status.isOk, Status.isNotFound]
  · intro hbit hs hib
    subst hs hib
    simp [classifyTuple, DiscardEntryWithBitset, hf, hbit, DiscardEntry,
      Status.isOk, Status.isNotFound]
  · intro other hbit hs hib hd hne
    subst hs hib
    have hne2 : ¬ bi = other := fun hh => hne hh.symm
    simp_all [classifyTuple, DiscardEntryWithBitset, hf, DiscardEntry,
      Status.isOk, Status.isNotFound]
  · intro hbit hs hib hd
    subst hs hib
    simp_all [classifyTuple, DiscardEntryWithBitset, hf, DiscardEntry,
      Status.isOk, Status.isNotFound]

/-- Witness for `classify_two_level`: all five rows at concrete inputs. -/
theorem classify_two_level_witness :
    classifyTuple [demoMeta]
        ⟨.ioError "never read", true, ⟨9, .ok emptyBlobIndex⟩, 6⟩
        ⟨3, ⟨0, 8, 0⟩⟩ = .ok (true, -1) ∧
    classifyTuple [demoMeta]
        ⟨.notFound "nf", false, ⟨0, .ok emptyBlobIndex⟩, 4⟩
        ⟨3, ⟨0, 8, 1⟩⟩ = .ok (true, 4) ∧
    classifyTuple [demoMeta]
        ⟨.ok, false, ⟨9, .ok emptyBlobIndex⟩, 4⟩
        ⟨3, ⟨0, 8, 1⟩⟩ = .ok (true, 4) ∧
    classifyTuple [demoMeta]
        ⟨.ok, true, ⟨9, .ok ⟨5, ⟨1, 2, 3⟩⟩⟩, 4⟩
        ⟨3, ⟨0, 8, 1⟩⟩ = .ok (true, 4) ∧
    classifyTuple [demoMeta]
        ⟨.ok, true, ⟨9, .ok ⟨3, ⟨0, 8, 1⟩⟩⟩, 4⟩
        ⟨3, ⟨0, 8, 1⟩⟩ = .ok (false, 4) :=
  ⟨(classify_two_level [demoMeta]
      ⟨.ioError "never read", true, ⟨9, .ok emptyBlobIndex⟩, 6⟩
      ⟨3, ⟨0, 8, 0⟩⟩ demoMeta rfl).1 rfl _,
   (classify_two_level [demoMeta]
      ⟨.notFound "nf", false, ⟨0, .ok emptyBlobIndex⟩, 4⟩
      ⟨3, ⟨0, 8, 1⟩⟩ demoMeta rfl).2.1 rfl rfl,
   (classify_two_level [demoMeta]
      ⟨.ok, false, ⟨9, .ok emptyBlobIndex⟩, 4⟩
      ⟨3, ⟨0, 8, 1⟩⟩ demoMeta rfl).2.2.1 rfl rfl rfl,
   (classify_two_level [demoMeta]
      ⟨.ok, true, ⟨9, .ok ⟨5, ⟨1, 2, 3⟩⟩⟩, 4⟩
      ⟨3, ⟨0, 8, 1⟩⟩ demoMeta rfl).2.2.2.1 ⟨5, ⟨1, 2, 3⟩⟩ rfl rfl rfl rfl
      (by decide),
   (classify_two_level [demoMeta]
      ⟨.ok, true, ⟨9, .ok ⟨3, ⟨0, 8, 1⟩⟩⟩, 4⟩
      ⟨3, ⟨0, 8, 1⟩⟩ demoMeta rfl).2.2.2.2 rfl rfl rfl rfl⟩

/-- C9: the per-level shadow builder array has exactly seven slots, and a
live record in shadow-rewrite mode selects its builder by indexing that
array with the level returned by the LSM lookup, with no clamp: the access
is in-bounds exactly when `0 ≤ level < 7`, and any out-of-range level —
including `-1` — reaches the out-of-range exit (the model of the source's
unchecked `level_shadow_builders[level]` access). -/
theorem shadow_level_bounds :
    initGCState.shadow_slots.length = levelShadowSlots ∧
    levelShadowSlots = 7 ∧
    (∀ env st t idx (level : Int),
      (0 ≤ level ∧ level < (levelShadowSlots : Int)) →
      ∃ st2, shadowPath env st t idx level = .cont st2) ∧
    (∀ env st t idx (level : Int),
      ¬ (0 ≤ level ∧ level < (levelShadowSlots : Int)) →
      shadowPath env st t idx level =
        .stop st (.aborted "shadow level out of range")) ∧
    (∀ env st t (level : Int), env.opts.rewrite_shadow = true →
      ¬ (0 ≤ level ∧ level < (levelShadowSlots : Int)) →
      ∃ st2, rewriteToBlob env st t level =
        .stop st2 (.aborted "shadow level out of range")) := by
  have hstop : ∀ env st t idx (level : Int),
      ¬ (0 ≤ level ∧ level < (levelShadowSlots : Int)) →
      shadowPath env st t idx level =
        .stop st (.aborted "shadow level out of range") := by
    intro env st t idx level h
    simp only [shadowPath, if_neg h]
  refine ⟨rfl, rfl, ?_, hstop, ?_⟩
  · intro env st t idx level hl
    simp only [shadowPath, if_pos hl]
    split
    · split <;> exact ⟨_, rfl⟩
    · split <;> exact ⟨_, rfl⟩
  · intro env st t level hsh hl
    simp only [rewriteToBlob, hsh]
    by_cases hts : env.opts.blob_file_target_size ≤ st.file_size <;>
      cases hc : st.cur_file <;>
        simp [hc, hts, if_pos, if_neg, hstop _ _ _ _ _ hl]

/-- Witness for `shadow_level_bounds`: slot count, an in-bounds access at
level 3, the out-of-range exit at level `-1`, and a live record in shadow
mode whose lookup reported level `-1`. -/
theorem shadow_level_bounds_witness :
    initGCState.shadow_slots.length = levelShadowSlots ∧
    (∃ st2, shadowPath demoEnv initGCState ⟨"a", emptyBlobIndex, "v"⟩
        emptyBlobIndex 3 = .cont st2) ∧
    shadowPath demoEnv initGCState ⟨"a", emptyBlobIndex, "v"⟩
        emptyBlobIndex (-1) =
      .stop initGCState (.aborted "shadow level out of range") ∧
    (∃ st2, rewriteToBlob
        { demoEnv with opts := { demoEnv.opts with rewrite_shadow := true } }
        initGCState ⟨"a", emptyBlobIndex, "v"⟩ (-1) =
      .stop st2 (.aborted "shadow level out of range")) :=
  ⟨shadow_level_bounds.1,
   shadow_level_bounds.2.2.1 _ _ _ _ 3 (by decide),
   shadow_level_bounds.2.2.2.1 _ _ _ _ (-1) (by decide),
   shadow_level_bounds.2.2.2.2 _ _ _ (-1) rfl (by decide)⟩

/-- C8: when the merged iterator over a valid, non-empty input set yields
zero keys, `Run` (via `DoRunGC`) is a no-op success: status OK, no output
blob file, no rewrite batch. -/
theorem run_empty_noop (env : GCEnv) (h : env.inputs ≠ []) :
    (DoRunGC env []).2 = .ok ∧ (DoRunGC env []).1.outputs = [] ∧
    (DoRunGC env []).1.batches = [] := by
  unfold DoRunGC runScanAux
  by_cases hsh : env.opts.rewrite_shadow <;>
    simp [hsh, initGCState, Status.isOk, List.replicate]

/-- Witness for `run_empty_noop` at a concrete environment. -/
theorem run_empty_noop_witness :
    (DoRunGC demoEnv []).2 = .ok ∧ (DoRunGC demoEnv []).1.outputs = [] ∧
    (DoRunGC demoEnv []).1.batches = [] :=
  run_empty_noop demoEnv (List.cons_ne_nil _ _)

/-- C2 counterexample: when step 1 fails in the `BatchFinishFiles` publish
itself (builders all finished), `Finish` returns the publish error, applies
no rewrite batch and marks nothing obsolete — but the output files are NOT
batch-deleted: the only external action is the failed publish call.  This
refutes the claim's "all unpublished output blob files are batch-deleted"
for this failure mode (the delete branch is the `else` of the builder
loop's status check and is unreachable from a publish failure). -/
theorem install_failure_counterexample :
    (Finish pubFailEnv).status = .ioError "publish failed" ∧
    (Finish pubFailEnv).events = [.installFiles [7]] :=
  ⟨rfl, rfl⟩

/-- C2 amended: if step 1 (`InstallOutputBlobFiles`) fails, no rewrite
batch is applied to the LSM, the WAL is not synced, the input files are
not marked obsolete, and `Finish` returns the step-1 error; the batch
delete of the output files happens exactly when the failure was a
builder-finish failure (not a `BatchFinishFiles` publish failure). -/
theorem install_failure_short_circuits (env : FinishEnv)
    (h : (InstallOutputBlobFiles env.builders env.batch_finish).1.isOk = false) :
    (Finish env).status =
      (InstallOutputBlobFiles env.builders env.batch_finish).1 ∧
    (∀ e ∈ (Finish env).events,
      (∀ i, e ≠ .applyRewrite i) ∧ e ≠ .flushWAL ∧
      (∀ fns, e ≠ .obsoleteEdit fns)) ∧
    ((installAux [] [] env.builders).2.2 ≠ .ok →
      (Finish env).events =
        [.deleteFiles (env.builders.map (fun b => b.file_number))]) := by
  rcases hia : installAux [] [] env.builders with ⟨fns, bs, sa⟩
  cases sa
  case ok =>
    have hbf : env.batch_finish.isOk = false := by
      simpa [InstallOutputBlobFiles, hia] using h
    have hst : (Finish env).status =
        (InstallOutputBlobFiles env.builders env.batch_finish).1 := by
      simp [Finish, InstallOutputBlobFiles, hia, hbf]
    have hev : (Finish env).events = [.installFiles fns] := by
      simp [Finish, InstallOutputBlobFiles, hia, hbf]
    refine ⟨hst, ?_, fun hne => absurd rfl hne⟩
    intro e he
    rw [hev] at he
    simp only [List.mem_singleton] at he
    subst he
    exact rank0_clean _ rfl
  all_goals
    (first
      | skip) <;>
    · have hst : (Finish env).status =
          (InstallOutputBlobFiles env.builders env.batch_finish).1 := by
        simp [Finish, InstallOutputBlobFiles, hia, Status.isOk]
      have hev : (Finish env).events =
          [.deleteFiles (env.builders.map (fun b => b.file_number))] := by
        simp [Finish, InstallOutputBlobFiles, hia, Status.isOk]
      refine ⟨hst, ?_, fun _ => hev⟩
      intro e he
      rw [hev] at he
      simp only [List.mem_singleton] at he
      subst he
      exact rank0_clean _ rfl

/-- Witness for `install_failure_short_circuits` at the concrete
builder-finish failure, where the delete branch is reached. -/
theorem install_failure_short_circuits_witness :
    (Finish builderFailEnv).status = .ioError "finish failed" ∧
    (Finish builderFailEnv).events = [.deleteFiles [7]] :=
  ⟨(install_failure_short_circuits builderFailEnv rfl).1,
   (install_failure_short_circuits builderFailEnv rfl).2.2 (by decide)⟩

theorem before_of_split (p q : GCEvent → Prop) (l1 l2 : List GCEvent)
    (hp : ∀ e ∈ l2, ¬ p e) (hq : ∀ e ∈ l1, ¬ q e) :
    beforeAll p q (l1 ++ l2) := by
  unfold beforeAll
  intro i j ei ej hi hj hpi hqj
  have hi2 : i < l1.length := by
    by_contra hle
    push_neg at hle
    rw [List.getElem?_append_right hle] at hi
    exact hp ei (List.getElem?_mem hi) hpi
  have hj2 : l1.length ≤ j := by
    by_contra hlt
    push_neg at hlt
    rw [List.getElem?_append_left hlt] at hj
    exact hq ej (List.getElem?_mem hj) hqj
  omega

theorem rewriteAux_events (cfd sd : Bool) (bs : List RewriteBatchM) :
    ∀ acc s, ∃ new, (rewriteAux cfd sd acc s bs).1.events = acc.events ++ new ∧
      ∀ e ∈ new, ∃ i, e = GCEvent.applyRewrite i := by
  cases cfd with
  | true =>
      intro acc s
      cases bs with
      | nil => exact ⟨[], by simp [rewriteAux], by simp⟩
      | cons b rest => exact ⟨[], by simp [rewriteAux], by simp⟩
  | false =>
  cases sd with
  | true =>
      intro acc s
      cases bs with
      | nil => exact ⟨[], by simp [rewriteAux], by simp⟩
      | cons b rest => exact ⟨[], by simp [rewriteAux], by simp⟩
  | false =>
  induction bs with
  | nil => intro acc s; exact ⟨[], by simp [rewriteAux], by simp⟩
  | cons b rest ih =>
      intro acc s
      by_cases hok : b.write_result.isOk
      · by_cases hsz : 0 < b.new_index.blob_handle.size
        · obtain ⟨new, hnew, hall⟩ := ih _ b.write_result
          refine ⟨.applyRewrite acc.idx :: new, ?_, ?_⟩
          · simp only [rewriteAux, hok, hsz, Bool.false_eq_true,
              if_false, if_true]
            rw [hnew]
            simp
          · intro e he
            rcases List.mem_cons.mp he with rfl | hmem
            · exact ⟨acc.idx, rfl⟩
            · exact hall e hmem
        · obtain ⟨new, hnew, hall⟩ := ih _ b.write_result
          refine ⟨.applyRewrite acc.idx :: new, ?_, ?_⟩
          · simp only [rewriteAux, hok, hsz, Bool.false_eq_true,
              if_false, if_true]
            rw [hnew]
            simp
          · intro e he
            rcases List.mem_cons.mp he with rfl | hmem
            · exact ⟨acc.idx, rfl⟩
            · exact hall e hmem
      by_cases hbusy : b.write_result.isBusy
      · obtain ⟨new, hnew, hall⟩ := ih _ b.write_result
        refine ⟨.applyRewrite acc.idx :: new, ?_, ?_⟩
        · simp only [rewriteAux, hok, hbusy, Bool.false_eq_true,
            if_false, if_true]
          rw [hnew]
          simp
        · intro e he
          rcases List.mem_cons.mp he with rfl | hmem
          · exact ⟨acc.idx, rfl⟩
          · exact hall e hmem
      · refine ⟨[.applyRewrite acc.idx], ?_, ?_⟩
        · simp [rewriteAux, hok, hbusy]
        · intro e he
          rcases List.mem_cons.mp he with rfl | hmem
          · exact ⟨acc.idx, rfl⟩
          · cases hmem

theorem rewrite_events_shape (cfd sd : Bool) (batches : List RewriteBatchM)
    (fw : Status) (storage : StorageM) :
    ∃ mid wal,
      (RewriteValidKeyToLSM cfd sd batches fw storage).1.events = mid ++ wal ∧
      (∀ e ∈ mid, ∃ i, e = GCEvent.applyRewrite i) ∧
      (wal = [] ∨ wal = [GCEvent.flushWAL]) := by
  obtain ⟨new, hnew, hall⟩ := rewriteAux_events cfd sd batches rewriteAcc0 .ok
  rcases hra : rewriteAux cfd sd rewriteAcc0 .ok batches with ⟨acc, s⟩
  rw [hra] at hnew
  simp only [rewriteAcc0] at hnew
  by_cases hb : s.isBusy
  · refine ⟨new, [.flushWAL], ?_, hall, Or.inr rfl⟩
    simp [RewriteValidKeyToLSM, hra, hb, Status.isOk, hnew]
  by_cases hok2 : s.isOk
  · refine ⟨new, [.flushWAL], ?_, hall, Or.inr rfl⟩
    simp [RewriteValidKeyToLSM, hra, hb, hok2, hnew]
  · refine ⟨new, [], ?_, hall, Or.inl rfl⟩
    simp [RewriteValidKeyToLSM, hra, hb, hok2, hnew]

theorem finishTail_events (env : FinishEnv) (s : Status) (evs : List GCEvent)
    (acc : RewriteAcc) (storage : StorageM) :
    ∃ l3, (finishTail env s evs acc storage).events = evs ++ l3 ∧
      ∀ e ∈ l3, evRank e = 3 := by
  unfold finishTail
  split
  · refine ⟨[.obsoleteEdit
      (env.input_fns.filter (fun n => ! env.input_obsolete n))], rfl, ?_⟩
    intro e he
    rcases List.mem_singleton.mp he with rfl
    rfl
  · exact ⟨[], by simp, by simp⟩

theorem finish_events_shape (env : FinishEnv) :
    ∃ l0 l1 l2 l3,
      (Finish env).events = l0 ++ (l1 ++ (l2 ++ l3)) ∧
      (∀ e ∈ l0, evRank e = 0) ∧ (∀ e ∈ l1, evRank e = 1) ∧
      (∀ e ∈ l2, evRank e = 2) ∧ (∀ e ∈ l3, evRank e = 3) := by
  rcases hI : InstallOutputBlobFiles env.builders env.batch_finish
    with ⟨s1, ev1, extra⟩
  have hev1 : ∀ e ∈ ev1, evRank e = 0 := by
    intro e he
    rcases hia : installAux [] [] env.builders with ⟨fns, bsx, sa⟩
    cases sa <;>
      (simp only [InstallOutputBlobFiles, hia] at hI ⊢;
       cases hI;
       simp only [List.mem_singleton] at he;
       subst he;
       rfl)
  by_cases hs1 : s1.isOk
  · by_cases hsh : env.rewrite_shadow
    · obtain ⟨l3, htl, h3⟩ := finishTail_events env .ok
        (ev1 ++ [.installShadows]) rewriteAcc0 env.storage
      refine ⟨ev1, [.installShadows], [], l3, ?_, hev1, ?_, ?_, h3⟩
      · have : (Finish env).events =
            (finishTail env .ok (ev1 ++ [.installShadows]) rewriteAcc0
              env.storage).events := by
          simp [Finish, hI, hs1, hsh]
        rw [this, htl]
        simp
      · intro e he
        rcases List.mem_singleton.mp he with rfl
        rfl
      · simp
    · rcases hR : RewriteValidKeyToLSM env.cf_dropped env.shutting_down
        (env.scan_batches ++ extra) env.flush_wal env.storage
        with ⟨acc, s2, storage2⟩
      obtain ⟨mid, wal, hmw, hmid, hwal⟩ := rewrite_events_shape
        env.cf_dropped env.shutting_down (env.scan_batches ++ extra)
        env.flush_wal env.storage
      rw [hR] at hmw
      obtain ⟨l3, htl, h3⟩ := finishTail_events env s2 (ev1 ++ acc.events)
        acc storage2
      refine ⟨ev1, mid, wal, l3, ?_, hev1,
        fun e he => by obtain ⟨i, rfl⟩ := hmid e he; rfl, ?_, h3⟩
      · have : (Finish env).events =
            (finishTail env s2 (ev1 ++ acc.events) acc storage2).events := by
          simp [Finish, hI, hs1, hsh, hR]
        rw [this, htl, hmw]
        simp
      · intro e he
        rcases hwal with rfl | rfl
        · cases he
        · rcases List.mem_singleton.mp he with rfl
          rfl
  · refine ⟨ev1, [], [], [], ?_, hev1, by simp, by simp, by simp⟩
    simp [Finish, hI, hs1]

/-- C6: within a single GC job, the output blob files are batch-published
before any rewrite batch is applied to the LSM; every LSM rewrite happens
before the WAL sync; and the WAL sync happens before the input files are
marked obsolete by the manifest edit. -/
theorem finish_phase_order (env : FinishEnv) :
    beforeAll evIsInstall evIsApply (Finish env).events ∧
    beforeAll evIsApply evIsWAL (Finish env).events ∧
    beforeAll evIsWAL evIsObsolete (Finish env).events := by
  obtain ⟨l0, l1, l2, l3, hsplit, h0, h1, h2, h3⟩ := finish_events_shape env
  have rk : ∀ e : GCEvent,
      (evIsInstall e → evRank e = 0) ∧ (evIsApply e → evRank e = 1) ∧
      (evIsWAL e → evRank e = 2) ∧ (evIsObsolete e → evRank e = 3) := by
    intro e
    refine ⟨?_, ?_, ?_, ?_⟩
    · rintro ⟨fns, rfl⟩; rfl
    · rintro ⟨i, rfl⟩; rfl
    · rintro rfl; rfl
    · rintro ⟨fns, rfl⟩; rfl
  refine ⟨?_, ?_, ?_⟩
  · rw [hsplit]
    apply before_of_split
    · intro e he hpe
      have := (rk e).1 hpe
      rcases List.mem_append.mp he with hm | hm
      · have := h1 e hm; omega
      rcases List.mem_append.mp hm with hm2 | hm2
      · have := h2 e hm2; omega
      · have := h3 e hm2; omega
    · intro e he hqe
      have := (rk e).2.1 hqe
      have := h0 e he
      omega
  · rw [hsplit, ← List.append_assoc]
    apply before_of_split
    · intro e he hpe
      have := (rk e).2.1 hpe
      rcases List.mem_append.mp he with hm | hm
      · have := h2 e hm; omega
      · have := h3 e hm; omega
    · intro e he hqe
      have := (rk e).2.2.1 hqe
      rcases List.mem_append.mp he with hm | hm
      · have := h0 e hm; omega
      · have := h1 e hm; omega
  · rw [hsplit, ← List.append_assoc, ← List.append_assoc]
    apply before_of_split
    · intro e he hpe
      have := (rk e).2.2.1 hpe
      have := h3 e he
      omega
    · intro e he hqe
      have := (rk e).2.2.2 hqe
      rcases List.mem_append.mp he with hm | hm
      · rcases List.mem_append.mp hm with hm2 | hm2
        · have := h0 e hm2; omega
        · have := h1 e hm2; omega
      · have := h2 e hm; omega

/-- Witness for `finish_phase_order`: in the all-success environment the
trace is publish, one rewrite, WAL sync, obsolete edit, and the theorem
yields the strict index ordering 0 < 1 < 2 < 3. -/
theorem finish_phase_order_witness :
    (Finish demoFinishEnv).events =
      [.installFiles [7], .applyRewrite 0, .flushWAL, .obsoleteEdit [3]] ∧
    (0 : Nat) < 1 ∧ (1 : Nat) < 2 ∧ (2 : Nat) < 3 :=
  ⟨rfl,
   (finish_phase_order demoFinishEnv).1 0 1 (.installFiles [7])
     (.applyRewrite 0) rfl rfl ⟨[7], rfl⟩ ⟨0, rfl⟩,
   (finish_phase_order demoFinishEnv).2.1 1 2 (.applyRewrite 0)
     .flushWAL rfl rfl ⟨0, rfl⟩ rfl,
   (finish_phase_order demoFinishEnv).2.2 2 3 .flushWAL
     (.obsoleteEdit [3]) rfl rfl rfl ⟨[3], rfl⟩⟩

theorem updateFile_append (pre : List FileM) (f : FileM) (post : List FileM)
    (fn : Nat) (g : FileM → FileM)
    (hpre : ∀ x ∈ pre, x.file_number ≠ fn) (hf : f.file_number = fn) :
    updateFile (pre ++ f :: post) fn g = pre ++ g f :: post := by
  induction pre with
  | nil => simp [updateFile, hf]
  | cons a rest ih =>
      have ha := hpre a (by simp)
      simp [updateFile, ha, ih (fun x hx => hpre x (by simp [hx]))]

theorem clearOrders_length (orders : List Nat) :
    ∀ bs : List Bool, (clearOrders bs orders).length = bs.length := by
  induction orders with
  | nil => intro bs; rfl
  | cons o rest ih => intro bs; rw [clearOrders, ih, List.length_set]

theorem clearOrders_not_mem (orders : List Nat) :
    ∀ (bs : List Bool) (o : Nat), o ∉ orders →
      (clearOrders bs orders)[o]? = bs[o]? := by
  induction orders with
  | nil => intro bs o h; rfl
  | cons a rest ih =>
      intro bs o h
      simp only [List.mem_cons, not_or] at h
      rw [clearOrders, ih _ _ h.2, List.getElem?_set_ne (Ne.symm h.1)]

theorem clearOrders_cleared (orders : List Nat) :
    ∀ (bs : List Bool) (o : Nat), o ∈ orders → o < bs.length →
      (clearOrders bs orders)[o]? = some false := by
  induction orders with
  | nil => intro bs o h hlt; cases h
  | cons a rest ih =>
      intro bs o hmem hlt
      by_cases hr : o ∈ rest
      · rw [clearOrders]
        exact ih _ _ hr (by rw [List.length_set]; exact hlt)
      · have ha : o = a := by
          rcases List.mem_cons.mp hmem with h | h
          · exact h
          · exact absurd h hr
        subst ha
        rw [clearOrders, clearOrders_not_mem rest _ _ hr,
          List.getElem?_set_self hlt]

theorem rewriteAux_all_busy (bs : List RewriteBatchM) :
    ∀ (acc : RewriteAcc) (s : Status), (∀ b ∈ bs, b.write_result.isBusy = true) →
      ((rewriteAux false false acc s bs).2 = s ∨
        (rewriteAux false false acc s bs).2.isBusy = true) ∧
      (rewriteAux false false acc s bs).1.keys_overwritten_callback =
        acc.keys_overwritten_callback + bs.length := by
  induction bs with
  | nil => intro acc s h; exact ⟨Or.inl rfl, by simp [rewriteAux]⟩
  | cons b rest ih =>
      intro acc s h
      have hb : b.write_result.isBusy = true := h b (by simp)
      have hok : b.write_result.isOk = false := by
        cases hw : b.write_result <;> simp_all [Status.isBusy, Status.isOk]
      have hrest : ∀ x ∈ rest, x.write_result.isBusy = true :=
        fun x hx => h x (by simp [hx])
      obtain ⟨hstat, hcount⟩ := ih _ b.write_result hrest
      constructor
      · rcases hstat with heq | hbusy2
        · right
          simp only [rewriteAux, hok, hb, Bool.false_eq_true, if_false, if_true]
          rw [heq]
          exact hb
        · right
          simp only [rewriteAux, hok, hb, Bool.false_eq_true, if_false, if_true]
          exact hbusy2
      · simp only [rewriteAux, hok, hb, Bool.false_eq_true, if_false, if_true]
        rw [hcount]
        simp only [List.length_cons]
        omega

/-- C5: a rewrite batch whose callback returns Busy is counted (key and old
blob record size) as overwritten-at-callback and recorded in the
per-output-file `dropped` accumulator; the mutex-held accounting then
clears the output file's liveness bit at the record's order, subtracts the
dropped bytes from `live_data_size` and recomputes the GC score; Busy is
downgraded to OK after the loop, so an all-Busy run still succeeds and the
input files are still marked obsolete. -/
theorem busy_rewrite_accounting :
    (∀ (acc : RewriteAcc) (s : Status) (b : RewriteBatchM)
        (rest : List RewriteBatchM), b.write_result.isBusy = true →
      rewriteAux false false acc s (b :: rest) =
        rewriteAux false false
          { acc with
            events := acc.events ++ [.applyRewrite acc.idx],
            idx := acc.idx + 1,
            keys_overwritten_callback := acc.keys_overwritten_callback + 1,
            bytes_overwritten_callback :=
              acc.bytes_overwritten_callback + b.old_index.blob_handle.size,
            dropped := addDropped acc.dropped b.new_index.file_number
              b.new_index.blob_handle.size b.new_index.blob_handle.order,
            bytes_read_callback := acc.bytes_read_callback + b.read_bytes }
          b.write_result rest) ∧
    (∀ (pre : List FileM) (f : FileM) (post : List FileM)
        (fn sz : Nat) (orders : List Nat) (r : Nat),
      (∀ x ∈ pre, x.file_number ≠ fn) → f.file_number = fn →
      applyOneDropped ⟨pre ++ f :: post, r⟩ fn sz orders =
        ⟨pre ++ (⟨f.file_number, f.live_data_size - (sz : Int),
                  clearOrders f.bitset orders⟩ : FileM) :: post,
         r + 1⟩) ∧
    (∀ (bs : List Bool) (orders : List Nat) (o : Nat), o ∈ orders →
      o < bs.length → (clearOrders bs orders)[o]? = some false) ∧
    (∀ env : FinishEnv, env.rewrite_shadow = false → env.cf_dropped = false →
      env.shutting_down = false → env.flush_wal = .ok →
      env.log_and_apply = .ok →
      (InstallOutputBlobFiles env.builders env.batch_finish).1 = .ok →
      (∀ b ∈ env.scan_batches ++
          (InstallOutputBlobFiles env.builders env.batch_finish).2.2,
        b.write_result.isBusy = true) →
      (Finish env).status = .ok ∧
      GCEvent.obsoleteEdit
          (env.input_fns.filter (fun n => ! env.input_obsolete n)) ∈
        (Finish env).events ∧
      (Finish env).acc.keys_overwritten_callback =
        (env.scan_batches ++
          (InstallOutputBlobFiles env.builders env.batch_finish).2.2).length) := by
  refine ⟨?_, ?_, ?_, ?_⟩
  · intro acc s b rest hb
    have hok : b.write_result.isOk = false := by
      cases hw : b.write_result <;> simp_all [Status.isBusy, Status.isOk]
    simp [rewriteAux, hok, hb]
  · intro pre f post fn sz orders r hpre hf
    have hany : (pre ++ f :: post).any (fun x => x.file_number == fn) = true := by
      rw [List.any_eq_true]
      exact ⟨f, by simp, by simp [hf]⟩
    simp only [applyOneDropped, hany, if_true]
    rw [updateFile_append pre f post fn _ hpre hf]
  · intro bs orders o hm hlt
    exact clearOrders_cleared orders bs o hm hlt
  · intro env hsh hcf hsd hfw hla hinst hbusy
    rcases hI : InstallOutputBlobFiles env.builders env.batch_finish
      with ⟨s1, ev1, extra⟩
    rw [hI] at hinst hbusy
    simp only at hinst hbusy
    subst hinst
    rcases hra : rewriteAux false false rewriteAcc0 .ok
      (env.scan_batches ++ extra) with ⟨acc2, s2⟩
    obtain ⟨hstat, hcount⟩ := rewriteAux_all_busy (env.scan_batches ++ extra)
      rewriteAcc0 .ok hbusy
    rw [hra] at hstat hcount
    have hR : RewriteValidKeyToLSM env.cf_dropped env.shutting_down
        (env.scan_batches ++ extra) env.flush_wal env.storage =
        ({ acc2 with events := acc2.events ++ [GCEvent.flushWAL] },
         env.flush_wal, applyDropped env.storage acc2.dropped) := by
      rw [hcf, hsd]
      simp only [RewriteValidKeyToLSM, hra]
      rcases hstat with heq | hbusy2
      · simp only at heq
        subst heq
        simp [Status.isBusy, Status.isOk]
      · simp [hbusy2, Status.isOk]
    have hfin : Finish env = finishTail env env.flush_wal
        (ev1 ++ ({ acc2 with
          events := acc2.events ++ [GCEvent.flushWAL] }).events)
        { acc2 with events := acc2.events ++ [GCEvent.flushWAL] }
        (applyDropped env.storage acc2.dropped) := by
      simp [Finish, hI, hsh, hR, Status.isOk]
    rw [hfin, hfw]
    have hcond : (Status.ok.isOk = true ∧ ¬ env.cf_dropped = true) := by
      simp [Status.isOk, hcf]
    refine ⟨?_, ?_, ?_⟩
    · simp [finishTail, hcond, hla]
    · simp [finishTail, hcond]
    · simp only at hcount
      simp [finishTail, hcond, hcount, rewriteAcc0]

/-- Witness for `busy_rewrite_accounting`: the concrete all-Busy run.  Both
batches target output file 7 (orders 0 and 1, 5+6 dropped bytes); the job
ends OK, marks input 3 obsolete, clears both bits and subtracts the bytes,
and recomputes the GC score once. -/
theorem busy_rewrite_accounting_witness :
    (Finish allBusyEnv).status = .ok ∧
    GCEvent.obsoleteEdit [3] ∈ (Finish allBusyEnv).events ∧
    (Finish allBusyEnv).acc.keys_overwritten_callback = 2 ∧
    (Finish allBusyEnv).acc.bytes_overwritten_callback = 16 ∧
    (Finish allBusyEnv).acc.dropped = [(7, 11, [0, 1])] ∧
    (Finish allBusyEnv).storage =
      ⟨[⟨7, 0, [false, false]⟩], 1⟩ ∧
    applyOneDropped ⟨[⟨7, 11, [true, true]⟩], 0⟩ 7 11 [0, 1] =
      ⟨[⟨7, 0, clearOrders [true, true] [0, 1]⟩], 1⟩ ∧
    (clearOrders [true, true] [0, 1])[0]? = some false :=
  ⟨((busy_rewrite_accounting).2.2.2 allBusyEnv rfl rfl rfl rfl rfl rfl
      (by decide)).1,
   ((busy_rewrite_accounting).2.2.2 allBusyEnv rfl rfl rfl rfl rfl rfl
      (by decide)).2.1,
   by decide, by decide, by decide, by decide,
   (busy_rewrite_accounting).2.1 [] ⟨7, 11, [true, true]⟩ [] 7 11 [0, 1] 0
     (by simp) rfl,
   (busy_rewrite_accounting).2.2.1 [true, true] [0, 1] 0 (by decide)
     (by decide)⟩

/-- C7 (code bug): the scan loop can never roll to a new output blob file.
With `blob_file_target_size = 10` and two live records of 12 bytes each
(`key.length + value.length = 12 > 10`), BOTH records land in the single
output file: the loop's `file_size` accumulator is compared against the
target and reset to 0 when a file is opened, but no statement in the
source ever increases it, so the roll condition
`file_size >= blob_file_target_size` cannot fire.  The claim (with spec
§4.3 and the §8 boundary tests) requires the second record to open a new
file. -/
theorem no_file_roll_at_target :
    (DoRunGC rollEnv [bigT1, bigT2]).2 = .ok ∧
    (DoRunGC rollEnv [bigT1, bigT2]).1.outputs = [⟨1, [bigT1, bigT2]⟩] ∧
    bigT1.key.length + bigT1.value.length = 12 ∧
    bigT2.key.length + bigT2.value.length = 12 ∧
    rollEnv.opts.blob_file_target_size = 10 :=
  ⟨rfl, rfl, rfl, rfl, rfl⟩

/-- C10 counterexample: in shadow-rewrite mode, a tuple with an unknown
`file_number` does stop the scan with NotFound, but `DoRunGC` then
finishes the still-open shadow builders and the source re-assigns the loop
status from those `Finish` calls, so `Run` returns OK and the NotFound
error is lost. -/
theorem unknown_file_number_masked :
    (runScanAux shadowEnv initGCState [bigT1, badTuple]).2 =
      .notFound "Blob file meta not found" ∧
    (DoRunGC shadowEnv [bigT1, badTuple]).2 = .ok :=
  ⟨rfl, rfl⟩

/-- C10 amended: a scanned blob index whose `file_number` matches no input
file makes `DiscardEntryWithBitset` return NotFound; a tuple reaching
classification stops the scan loop immediately (the result does not depend
on the remaining tuples, and no classification or rewrite happens); and —
when `rewrite_shadow` is unset — `Run` propagates that NotFound.  (In
shadow mode a previously opened shadow builder's successful `Finish`
overwrites the status: see the counterexample.) -/
theorem unknown_file_aborts_scan (env : GCEnv) (st : GCState) (t : GCTuple)
    (hsd : env.shutting_down = false)
    (hmiss : ∀ f ∈ env.inputs, f.file_number ≠ t.blob_index.file_number) :
    DiscardEntryWithBitset env.inputs t.blob_index =
      .error (.notFound "Blob file meta not found") ∧
    (¬ skipCond st t →
      ∃ st2, (∀ rest, runScanAux env st (t :: rest) =
          (st2, .notFound "Blob file meta not found")) ∧
        st2.batches = st.batches ∧ st2.outputs = st.outputs ∧
        st2.valid_count = st.valid_count ∧
        st2.discardable_count = st.discardable_count) ∧
    (∀ tuples, env.opts.rewrite_shadow = false →
      (runScanAux env initGCState tuples).2 =
        .notFound "Blob file meta not found" →
      (DoRunGC env tuples).2 = .notFound "Blob file meta not found") := by
  have hfind : env.inputs.find?
      (fun f => f.file_number == t.blob_index.file_number) = none := by
    rw [List.find?_eq_none]
    intro x hx
    simp [hmiss x hx]
  have hdeb : DiscardEntryWithBitset env.inputs t.blob_index =
      .error (.notFound "Blob file meta not found") := by
    simp [DiscardEntryWithBitset, hfind]
  refine ⟨hdeb, ?_, ?_⟩
  · intro hns
    by_cases hdup : st.last_key ≠ "" ∧ t.key = st.last_key
    · have hfresh : st.last_key_is_fresh = false := by
        cases hb : st.last_key_is_fresh
        · rfl
        · exact absurd ⟨hdup.1, hdup.2, hb⟩ hns
      refine ⟨{ st with total_count := st.total_count + 1, m_bytes_read_blob := st.m_bytes_read_blob + t.blob_index.blob_handle.size }, ?_, rfl, rfl, rfl, rfl⟩
      intro rest
      simp [runScanAux, scanStep, hsd, hdup, hfresh, processTuple,
        classifyTuple, hdeb]
    · refine ⟨{ st with last_key := t.key, last_key_is_fresh := false, total_count := st.total_count + 1, m_bytes_read_blob := st.m_bytes_read_blob + t.blob_index.blob_handle.size }, ?_, rfl, rfl, rfl, rfl⟩
      intro rest
      simp [runScanAux, scanStep, hsd, hdup, processTuple, classifyTuple,
        hdeb]
  · intro tuples hsh hnot
    rcases hrs : runScanAux env initGCState tuples with ⟨stf, sf⟩
    rw [hrs] at hnot
    simp only at hnot
    subst hnot
    simp [DoRunGC, hrs, hsh, Status.isOk]

/-- Witness for `unknown_file_aborts_scan`: with `badTuple` first in a
non-shadow run, the scan stops at once and `DoRunGC` returns NotFound. -/
theorem unknown_file_aborts_scan_witness :
    DiscardEntryWithBitset rollEnv.inputs badTuple.blob_index =
      .error (.notFound "Blob file meta not found") ∧
    (runScanAux rollEnv initGCState [badTuple, bigT1]).2 =
      .notFound "Blob file meta not found" ∧
    (DoRunGC rollEnv [badTuple, bigT1]).2 =
      .notFound "Blob file meta not found" := by
  have h := unknown_file_aborts_scan rollEnv initGCState badTuple rfl
    (by intro f hf; rcases List.mem_singleton.mp hf with rfl; decide)
  refine ⟨h.1, ?_, ?_⟩
  · obtain ⟨st2, hrun, _⟩ := h.2.1 (by simp [skipCond, initGCState])
    rw [hrun [bigT1]]
  · exact h.2.2 [badTuple, bigT1] rfl (by
      obtain ⟨st2, hrun, _⟩ := h.2.1 (by simp [skipCond, initGCState])
      rw [hrun [bigT1]])

theorem mem_dedupAdj : ∀ (l : List String) (x : String),
    x ∈ dedupAdj l ↔ x ∈ l := by
  intro l
  induction l with
  | nil => intro x; simp [dedupAdj]
  | cons a rest ih =>
      cases rest with
      | nil => intro x; simp [dedupAdj]
      | cons b r2 =>
          intro x
          by_cases hab : a = b
          · subst hab
            rw [show dedupAdj (a :: a :: r2) = dedupAdj (a :: r2) from by
              simp [dedupAdj]]
            rw [ih x]
            simp
          · rw [show dedupAdj (a :: b :: r2) = a :: dedupAdj (b :: r2) from by
              simp [dedupAdj, hab]]
            simp [ih x]

theorem grouped_collapse (a : String) (l : List String)
    (h : Grouped (a :: a :: l)) : Grouped (a :: l) := by
  rw [Grouped, show dedupAdj (a :: a :: l) = dedupAdj (a :: l) from by
    simp [dedupAdj]] at h
  exact h

theorem grouped_step (a b : String) (l : List String) (h : a ≠ b)
    (hg : Grouped (a :: b :: l)) : Grouped (b :: l) ∧ a ∉ b :: l := by
  rw [Grouped, show dedupAdj (a :: b :: l) = a :: dedupAdj (b :: l) from by
    simp [dedupAdj, h], List.nodup_cons] at hg
  exact ⟨hg.2, fun hm => hg.1 ((mem_dedupAdj _ a).mpr hm)⟩

theorem grouped_cons_of_not_mem (a : String) (l : List String)
    (ha : a ∉ l) (hg : Grouped l) : Grouped (a :: l) := by
  cases l with
  | nil => simp [Grouped, dedupAdj]
  | cons b r =>
      have hab : a ≠ b := fun hc => ha (by rw [hc]; simp)
      rw [Grouped, show dedupAdj (a :: b :: r) = a :: dedupAdj (b :: r) from by
        simp [dedupAdj, hab], List.nodup_cons]
      exact ⟨fun hm => ha ((mem_dedupAdj _ a).mp hm), hg⟩

theorem shadowPath_cont_fields (env : GCEnv) (st : GCState) (t : GCTuple)
    (idx : BlobIndex) (level : Int) (st2 : GCState)
    (h : shadowPath env st t idx level = .cont st2) :
    st2.last_key = st.last_key ∧
    st2.last_key_is_fresh = st.last_key_is_fresh ∧
    st2.valid_count = st.valid_count ∧ st2.batches = st.batches ∧
    st2.outputs = st.outputs ∧ st2.cur_file = st.cur_file := by
  unfold shadowPath at h
  split at h
  · simp only [] at h
    split at h
    · split at h <;> (cases h; exact ⟨rfl, rfl, rfl, rfl, rfl, rfl⟩)
    · split at h <;> (cases h; exact ⟨rfl, rfl, rfl, rfl, rfl, rfl⟩)
  · cases h

theorem shadowPath_stop_fields (env : GCEnv) (st : GCState) (t : GCTuple)
    (idx : BlobIndex) (level : Int) (st2 : GCState) (s : Status)
    (h : shadowPath env st t idx level = .stop st2 s) : st2 = st := by
  unfold shadowPath at h
  split at h
  · simp only [] at h
    split at h
    · split at h <;> cases h
    · split at h <;> cases h
  · cases h
    rfl

theorem outRecordKeys_roll (st : GCState) (f : OutFile)
    (hc : st.cur_file = some f) :
    outRecordKeys { st with outputs := st.outputs ++ [f], cur_file := none } =
      outRecordKeys st := by
  simp [outRecordKeys, hc]

theorem rewriteToBlob_eq (env : GCEnv) (st : GCState) (t : GCTuple)
    (level : Int) :
    ∃ stAdd idx,
      rewriteToBlob env st t level =
        (if env.opts.rewrite_shadow then shadowPath env stAdd t idx level
         else .cont { stAdd with
           batches := stAdd.batches ++ [⟨t.key, t.blob_index, idx⟩] }) ∧
      stAdd.last_key = st.last_key ∧
      stAdd.last_key_is_fresh = st.last_key_is_fresh ∧
      stAdd.valid_count = st.valid_count ∧
      batchKeys stAdd = batchKeys st ∧
      outRecordKeys stAdd = outRecordKeys st ++ [t.key] := by
  by_cases hts : env.opts.blob_file_target_size ≤ st.file_size <;>
    rcases hc : st.cur_file with _ | f
  · refine ⟨{ st with cur_file := some ⟨st.next_file_number, [t]⟩, next_file_number := st.next_file_number + 1, file_size := 0 },
      ⟨st.next_file_number, ⟨0, t.key.length + t.value.length, 0⟩⟩,
      ?_, rfl, rfl, rfl, rfl, ?_⟩
    · simp [rewriteToBlob, hc, hts]
    · simp [outRecordKeys, hc]
  · refine ⟨{ st with outputs := st.outputs ++ [f], cur_file := some ⟨st.next_file_number, [t]⟩, next_file_number := st.next_file_number + 1, file_size := 0 },
      ⟨st.next_file_number, ⟨0, t.key.length + t.value.length, 0⟩⟩,
      ?_, rfl, rfl, rfl, rfl, ?_⟩
    · simp [rewriteToBlob, hc, hts]
    · simp [outRecordKeys, hc]
  · refine ⟨{ st with cur_file := some ⟨st.next_file_number, [t]⟩, next_file_number := st.next_file_number + 1, file_size := 0 },
      ⟨st.next_file_number, ⟨0, t.key.length + t.value.length, 0⟩⟩,
      ?_, rfl, rfl, rfl, rfl, ?_⟩
    · simp [rewriteToBlob, hc, hts]
    · simp [outRecordKeys, hc]
  · refine ⟨{ st with cur_file := some ⟨f.file_number, f.records ++ [t]⟩ },
      ⟨f.file_number, ⟨0, t.key.length + t.value.length, f.records.length⟩⟩,
      ?_, rfl, rfl, rfl, rfl, ?_⟩
    · simp [rewriteToBlob, hc, hts]
    · simp [outRecordKeys, hc]

theorem rewriteToBlob_effect (env : GCEnv) (st : GCState) (t : GCTuple)
    (level : Int) (st2 : GCState)
    (h : rewriteToBlob env st t level = .cont st2 ∨
      ∃ s, rewriteToBlob env st t level = .stop st2 s) :
    st2.last_key = st.last_key ∧
    st2.last_key_is_fresh = st.last_key_is_fresh ∧
    st2.valid_count = st.valid_count ∧
    (batchKeys st2 = batchKeys st ∨ batchKeys st2 = batchKeys st ++ [t.key]) ∧
    (outRecordKeys st2 = outRecordKeys st ∨
      outRecordKeys st2 = outRecordKeys st ++ [t.key]) := by
  obtain ⟨stAdd, idx, heq, h1, h2, h3, h4, h5⟩ := rewriteToBlob_eq env st t level
  rw [heq] at h
  by_cases hsh : env.opts.rewrite_shadow
  · rw [if_pos hsh] at h
    have hfields : st2.last_key = stAdd.last_key ∧
        st2.last_key_is_fresh = stAdd.last_key_is_fresh ∧
        st2.valid_count = stAdd.valid_count ∧ st2.batches = stAdd.batches ∧
        st2.outputs = stAdd.outputs ∧ st2.cur_file = stAdd.cur_file := by
      rcases h with hc2 | ⟨s, hs2⟩
      · exact shadowPath_cont_fields env stAdd t idx level st2 hc2
      · rcases shadowPath_stop_fields env stAdd t idx level st2 s hs2 with rfl
        exact ⟨rfl, rfl, rfl, rfl, rfl, rfl⟩
    obtain ⟨g1, g2, g3, g4, g5, g6⟩ := hfields
    refine ⟨g1.trans h1, g2.trans h2, g3.trans h3, Or.inl ?_, Or.inr ?_⟩
    · rw [batchKeys, g4, ← batchKeys, h4]
    · rw [outRecordKeys, g5, g6, ← outRecordKeys, h5]
  · rw [if_neg hsh] at h
    rcases h with hc2 | ⟨s, hs2⟩
    · cases hc2
      refine ⟨h1, h2, h3, Or.inr ?_, Or.inr ?_⟩
      · rw [batchKeys]
        simp only [List.map_append]
        rw [← batchKeys, h4]
        rfl
      · rw [show outRecordKeys { stAdd with
          batches := stAdd.batches ++ [⟨t.key, t.blob_index, idx⟩] } =
            outRecordKeys stAdd from rfl, h5]
    · cases hs2

theorem processTuple_effect (env : GCEnv) (st : GCState) (t : GCTuple)
    (st2 : GCState)
    (h : processTuple env st t = .cont st2 ∨
      ∃ s, processTuple env st t = .stop st2 s) :
    st2.last_key = st.last_key ∧
    ((st2.last_key_is_fresh = st.last_key_is_fresh ∧
      st2.valid_count = st.valid_count ∧
      batchKeys st2 = batchKeys st ∧ outRecordKeys st2 = outRecordKeys st) ∨
     (st2.last_key_is_fresh = true ∧ st2.valid_count = st.valid_count + 1 ∧
      (batchKeys st2 = batchKeys st ∨
        batchKeys st2 = batchKeys st ++ [t.key]) ∧
      (outRecordKeys st2 = outRecordKeys st ∨
        outRecordKeys st2 = outRecordKeys st ++ [t.key]))) := by
  unfold processTuple at h
  rcases hcl : classifyTuple env.inputs (env.lsm t.key) t.blob_index
    with e | ⟨d, level⟩
  · rw [hcl] at h
    rcases h with hc2 | ⟨s, hs2⟩
    · cases hc2
    · cases hs2
      exact ⟨rfl, Or.inl ⟨rfl, rfl, rfl, rfl⟩⟩
  · rw [hcl] at h
    cases d
    · -- live path
      simp only [] at h
      by_cases hfb : env.opts.blob_run_mode_fallback
      · rw [if_pos hfb] at h
        rcases h with hc2 | ⟨s, hs2⟩
        · cases hc2
          refine ⟨rfl, Or.inr ⟨rfl, rfl, Or.inr ?_, Or.inl rfl⟩⟩
          simp [batchKeys]
        · cases hs2
      · rw [if_neg hfb] at h
        have heff := rewriteToBlob_effect env { st with valid_count := st.valid_count + 1, last_key_is_fresh := true } t level st2 h
        obtain ⟨g1, g2, g3, g4, g5⟩ := heff
        exact ⟨g1, Or.inr ⟨g2, g3, g4, g5⟩⟩
    · -- discardable path
      rcases h with hc2 | ⟨s, hs2⟩
      · cases hc2
        exact ⟨rfl, Or.inl ⟨rfl, rfl, rfl, rfl⟩⟩
      · cases hs2

theorem count_snoc_le (l : List String) (a : String) (h0 : l.count a = 0)
    (hle : ∀ k, l.count k ≤ 1) : ∀ k, (l ++ [a]).count k ≤ 1 := by
  intro k
  rw [List.count_append, List.count_singleton]
  by_cases hk : a = k
  · subst hk
    simp [h0]
  · have : (a == k) = false := by simp [hk]
    rw [this]
    simpa using hle k

theorem count_snoc_pos (l : List String) (a k : String)
    (h : 0 < (l ++ [a]).count k) : 0 < l.count k ∨ k = a := by
  rw [List.count_append, List.count_singleton] at h
  by_cases hk : a = k
  · exact Or.inr hk.symm
  · have hb : (a == k) = false := by simp [hk]
    rw [hb] at h
    simp only [if_false, Nat.add_zero, Bool.false_eq_true] at h
    exact Or.inl h

theorem scan_inv (env : GCEnv) :
    ∀ (tuples : List GCTuple) (st : GCState),
      (∀ k, (batchKeys st).count k ≤ 1) →
      (∀ k, (outRecordKeys st).count k ≤ 1) →
      (∀ k, (0 < (batchKeys st).count k ∨ 0 < (outRecordKeys st).count k) →
        (k = st.last_key ∧ st.last_key_is_fresh = true) ∨
        k ∉ tuples.map (fun x => x.key)) →
      Grouped (st.last_key :: tuples.map (fun x => x.key)) →
      (∀ x ∈ tuples, x.key ≠ "") →
      (∀ k, (batchKeys (runScanAux env st tuples).1).count k ≤ 1) ∧
      (∀ k, (outRecordKeys (runScanAux env st tuples).1).count k ≤ 1) := by
  intro tuples
  induction tuples with
  | nil => intro st h1 h2 h3 hg hne; exact ⟨h1, h2⟩
  | cons t rest ih =>
      intro st h1 h2 h3 hg hne
      have hne_head : t.key ≠ "" := hne t (by simp)
      rw [runScanAux]
      by_cases hsd : env.shutting_down
      · have hstep : scanStep env st t =
            .stop { st with total_count := st.total_count + 1 }
              .shutdownInProgress := by
          simp [scanStep, hsd]
        rw [hstep]
        exact ⟨h1, h2⟩
      by_cases hdup : st.last_key ≠ "" ∧ t.key = st.last_key
      · by_cases hfresh : st.last_key_is_fresh
        · -- skip branch
          have hstep : scanStep env st t =
              .cont { st with total_count := st.total_count + 1, m_bytes_read_blob := st.m_bytes_read_blob + t.blob_index.blob_handle.size } := by
            simp [scanStep, hsd, hdup, hfresh]
          rw [hstep]
          refine ih _ h1 h2 ?_ ?_ (fun x hx => hne x (by simp [hx]))
          · intro k hk
            rcases h3 k hk with hkey | hnm
            · exact Or.inl hkey
            · simp only [List.map_cons, List.mem_cons, not_or] at hnm
              exact Or.inr hnm.2
          · rw [List.map_cons, hdup.2] at hg
            exact grouped_collapse st.last_key _ hg
        · -- same key, not fresh: classify again
          have hstep : scanStep env st t = processTuple env { st with total_count := st.total_count + 1, m_bytes_read_blob := st.m_bytes_read_blob + t.blob_index.blob_handle.size } t := by
            simp [scanStep, hsd, hdup, hfresh]
          rw [hstep]
          have hfreshF : st.last_key_is_fresh = false := by
            cases hb : st.last_key_is_fresh
            · rfl
            · exact absurd hb hfresh
          have hcb0 : (batchKeys st).count t.key = 0 := by
            rcases Nat.eq_zero_or_pos ((batchKeys st).count t.key) with h0 | hp
            · exact h0
            · rcases h3 t.key (Or.inl hp) with ⟨_, hkf⟩ | hnm
              · rw [hfreshF] at hkf; cases hkf
              · exact absurd (by simp) hnm
          have hcr0 : (outRecordKeys st).count t.key = 0 := by
            rcases Nat.eq_zero_or_pos ((outRecordKeys st).count t.key)
              with h0 | hp
            · exact h0
            · rcases h3 t.key (Or.inr hp) with ⟨_, hkf⟩ | hnm
              · rw [hfreshF] at hkf; cases hkf
              · exact absurd (by simp) hnm
          rcases hres : processTuple env { st with total_count := st.total_count + 1, m_bytes_read_blob := st.m_bytes_read_blob + t.blob_index.blob_handle.size } t with st2 | ⟨st2, s⟩
          all_goals
            obtain ⟨hl0, hD0⟩ := processTuple_effect env _ t st2
              (by first
                | exact Or.inl hres
                | exact Or.inr ⟨s, hres⟩)
          all_goals
            have hl : st2.last_key = st.last_key := hl0
          all_goals
            have hD : (st2.last_key_is_fresh = st.last_key_is_fresh ∧
                st2.valid_count = st.valid_count ∧
                batchKeys st2 = batchKeys st ∧
                outRecordKeys st2 = outRecordKeys st) ∨
              (st2.last_key_is_fresh = true ∧
                st2.valid_count = st.valid_count + 1 ∧
                (batchKeys st2 = batchKeys st ∨
                  batchKeys st2 = batchKeys st ++ [t.key]) ∧
                (outRecordKeys st2 = outRecordKeys st ∨
                  outRecordKeys st2 = outRecordKeys st ++ [t.key])) := hD0
          all_goals
            have hC1 : ∀ k, (batchKeys st2).count k ≤ 1 := by
              rcases hD with ⟨_, _, hbk, _⟩ | ⟨_, _, hbk | hbk, _⟩
              · intro k; rw [hbk]; exact h1 k
              · intro k; rw [hbk]; exact h1 k
              · rw [hbk]; exact count_snoc_le _ _ hcb0 h1
          all_goals
            have hC2 : ∀ k, (outRecordKeys st2).count k ≤ 1 := by
              rcases hD with ⟨_, _, _, hrk⟩ | ⟨_, _, _, hrk | hrk⟩
              · intro k; rw [hrk]; exact h2 k
              · intro k; rw [hrk]; exact h2 k
              · rw [hrk]; exact count_snoc_le _ _ hcr0 h2
          · -- cont: recurse
            refine ih st2 hC1 hC2 ?_ ?_ (fun x hx => hne x (by simp [hx]))
            · intro k hk
              have hold : (0 < (batchKeys st).count k ∨
                  0 < (outRecordKeys st).count k) ∨ k = t.key := by
                rcases hD with ⟨_, _, hbk, hrk⟩ | ⟨_, _, hbk | hbk, hrk | hrk⟩
                all_goals rw [hbk, hrk] at hk
                · exact Or.inl hk
                · exact Or.inl hk
                · rcases hk with hk | hk
                  · exact Or.inl (Or.inl hk)
                  · rcases count_snoc_pos _ _ _ hk with hp | hp
                    · exact Or.inl (Or.inr hp)
                    · exact Or.inr hp
                · rcases hk with hk | hk
                  · rcases count_snoc_pos _ _ _ hk with hp | hp
                    · exact Or.inl (Or.inl hp)
                    · exact Or.inr hp
                  · exact Or.inl (Or.inr hk)
                · rcases hk with hk | hk
                  · rcases count_snoc_pos _ _ _ hk with hp | hp
                    · exact Or.inl (Or.inl hp)
                    · exact Or.inr hp
                  · rcases count_snoc_pos _ _ _ hk with hp | hp
                    · exact Or.inl (Or.inr hp)
                    · exact Or.inr hp
              rcases hold with hold | hkt
              · rcases h3 k hold with ⟨_, hkf⟩ | hnm
                · rw [hfreshF] at hkf; cases hkf
                · simp only [List.map_cons, List.mem_cons, not_or] at hnm
                  exact Or.inr hnm.2
              · subst hkt
                rcases hD with ⟨hfr, _, hbk, hrk⟩ | ⟨hfr, _, _, _⟩
                · rw [hbk, hrk] at hk
                  rcases hk with hk | hk
                  · rw [hcb0] at hk; cases hk
                  · rw [hcr0] at hk; cases hk
                · exact Or.inl ⟨by rw [hl, hdup.2], hfr⟩
            · rw [hl]
              rw [List.map_cons, hdup.2] at hg
              exact grouped_collapse st.last_key _ hg
          · -- stop: done
            exact ⟨hC1, hC2⟩
      · -- new key
        have hstep : scanStep env st t = processTuple env { st with last_key := t.key, last_key_is_fresh := false, total_count := st.total_count + 1, m_bytes_read_blob := st.m_bytes_read_blob + t.blob_index.blob_handle.size } t := by
          simp [scanStep, hsd, hdup]
        rw [hstep]
        have hlt : st.last_key ≠ t.key := by
          by_cases hA : st.last_key = ""
          · rw [hA]
            exact fun hcon => hne_head hcon.symm
          · intro hcon
            exact hdup ⟨hA, hcon.symm⟩
        have hgs := grouped_step st.last_key t.key (rest.map (fun x => x.key))
          hlt (by rw [← List.map_cons]; exact hg)
        have hcb0 : (batchKeys st).count t.key = 0 := by
          rcases Nat.eq_zero_or_pos ((batchKeys st).count t.key) with h0 | hp
          · exact h0
          · rcases h3 t.key (Or.inl hp) with ⟨hkl, _⟩ | hnm
            · exact absurd hkl.symm hlt
            · exact absurd (by simp) hnm
        have hcr0 : (outRecordKeys st).count t.key = 0 := by
          rcases Nat.eq_zero_or_pos ((outRecordKeys st).count t.key)
            with h0 | hp
          · exact h0
          · rcases h3 t.key (Or.inr hp) with ⟨hkl, _⟩ | hnm
            · exact absurd hkl.symm hlt
            · exact absurd (by simp) hnm
        rcases hres : processTuple env { st with last_key := t.key, last_key_is_fresh := false, total_count := st.total_count + 1, m_bytes_read_blob := st.m_bytes_read_blob + t.blob_index.blob_handle.size } t with st2 | ⟨st2, s⟩
        all_goals
          obtain ⟨hl0, hD0⟩ := processTuple_effect env _ t st2
            (by first
              | exact Or.inl hres
              | exact Or.inr ⟨s, hres⟩)
        all_goals
          have hl : st2.last_key = t.key := hl0
        all_goals
          have hD : (st2.last_key_is_fresh = false ∧
              st2.valid_count = st.valid_count ∧
              batchKeys st2 = batchKeys st ∧
              outRecordKeys st2 = outRecordKeys st) ∨
            (st2.last_key_is_fresh = true ∧
              st2.valid_count = st.valid_count + 1 ∧
              (batchKeys st2 = batchKeys st ∨
                batchKeys st2 = batchKeys st ++ [t.key]) ∧
              (outRecordKeys st2 = outRecordKeys st ∨
                outRecordKeys st2 = outRecordKeys st ++ [t.key])) := hD0
        all_goals
          have hC1 : ∀ k, (batchKeys st2).count k ≤ 1 := by
            rcases hD with ⟨_, _, hbk, _⟩ | ⟨_, _, hbk | hbk, _⟩
            · intro k; rw [hbk]; exact h1 k
            · intro k; rw [hbk]; exact h1 k
            · rw [hbk]; exact count_snoc_le _ _ hcb0 h1
        all_goals
          have hC2 : ∀ k, (outRecordKeys st2).count k ≤ 1 := by
            rcases hD with ⟨_, _, _, hrk⟩ | ⟨_, _, _, hrk | hrk⟩
            · intro k; rw [hrk]; exact h2 k
            · intro k; rw [hrk]; exact h2 k
            · rw [hrk]; exact count_snoc_le _ _ hcr0 h2
        · -- cont: recurse
          refine ih st2 hC1 hC2 ?_ ?_ (fun x hx => hne x (by simp [hx]))
          · intro k hk
            have hold : (0 < (batchKeys st).count k ∨
                0 < (outRecordKeys st).count k) ∨ k = t.key := by
              rcases hD with ⟨_, _, hbk, hrk⟩ | ⟨_, _, hbk | hbk, hrk | hrk⟩
              all_goals rw [hbk, hrk] at hk
              · exact Or.inl hk
              · exact Or.inl hk
              · rcases hk with hk | hk
                · exact Or.inl (Or.inl hk)
                · rcases count_snoc_pos _ _ _ hk with hp | hp
                  · exact Or.inl (Or.inr hp)
                  · exact Or.inr hp
              · rcases hk with hk | hk
                · rcases count_snoc_pos _ _ _ hk with hp | hp
                  · exact Or.inl (Or.inl hp)
                  · exact Or.inr hp
                · exact Or.inl (Or.inr hk)
              · rcases hk with hk | hk
                · rcases count_snoc_pos _ _ _ hk with hp | hp
                  · exact Or.inl (Or.inl hp)
                  · exact Or.inr hp
                · rcases count_snoc_pos _ _ _ hk with hp | hp
                  · exact Or.inl (Or.inr hp)
                  · exact Or.inr hp
            rcases hold with hold | hkt
            · rcases h3 k hold with ⟨hkl, _⟩ | hnm
              · subst hkl
                have hnm2 : st.last_key ∉ rest.map (fun x => x.key) := by
                  have hx := hgs.2
                  simp only [List.mem_cons, not_or] at hx
                  exact hx.2
                exact Or.inr hnm2
              · simp only [List.map_cons, List.mem_cons, not_or] at hnm
                exact Or.inr hnm.2
            · subst hkt
              rcases hD with ⟨hfr, _, hbk, hrk⟩ | ⟨hfr, _, _, _⟩
              · rw [hbk, hrk] at hk
                rcases hk with hk | hk
                · rw [hcb0] at hk; cases hk
                · rw [hcr0] at hk; cases hk
              · exact Or.inl ⟨hl.symm, hfr⟩
          · rw [hl]
            exact hgs.1
        · -- stop: done
          exact ⟨hC1, hC2⟩

theorem DoRunGC_state_keys (env : GCEnv) (tuples : List GCTuple) :
    batchKeys (DoRunGC env tuples).1 =
      batchKeys (runScanAux env initGCState tuples).1 ∧
    outRecordKeys (DoRunGC env tuples).1 =
      outRecordKeys (runScanAux env initGCState tuples).1 := by
  rcases h : runScanAux env initGCState tuples with ⟨st, s⟩
  unfold DoRunGC
  rw [h]
  by_cases hsok : s.isOk
  · rcases hc : st.cur_file with _ | f
    · by_cases hsh : env.opts.rewrite_shadow <;>
        simp [hsok, hc, hsh, batchKeys, outRecordKeys]
    · by_cases hsh : env.opts.rewrite_shadow <;>
        simp [hsok, hc, hsh, batchKeys, outRecordKeys]
  · by_cases hsh : env.opts.rewrite_shadow <;>
      simp [hsok, hsh, batchKeys, outRecordKeys]

theorem scanStep_fresh_iff (env : GCEnv) (st : GCState) (t : GCTuple)
    (st2 : GCState) (hsd : env.shutting_down = false)
    (h : scanStep env st t = .cont st2) :
    (st2.last_key_is_fresh = true ↔
      skipCond st t ∨ st2.valid_count = st.valid_count + 1) := by
  by_cases hdup : st.last_key ≠ "" ∧ t.key = st.last_key
  · by_cases hfresh : st.last_key_is_fresh
    · have hstep : scanStep env st t =
          .cont { st with total_count := st.total_count + 1, m_bytes_read_blob := st.m_bytes_read_blob + t.blob_index.blob_handle.size } := by
        simp [scanStep, hsd, hdup, hfresh]
      rw [hstep] at h
      cases h
      simp only []
      constructor
      · intro _
        exact Or.inl ⟨hdup.1, hdup.2, hfresh⟩
      · intro _
        exact hfresh
    · have hstep : scanStep env st t = processTuple env { st with total_count := st.total_count + 1, m_bytes_read_blob := st.m_bytes_read_blob + t.blob_index.blob_handle.size } t := by
        simp [scanStep, hsd, hdup, hfresh]
      rw [hstep] at h
      have hfreshF : st.last_key_is_fresh = false := by
        cases hb : st.last_key_is_fresh
        · rfl
        · exact absurd hb hfresh
      obtain ⟨_, hD0⟩ := processTuple_effect env _ t st2 (Or.inl h)
      have hD : (st2.last_key_is_fresh = st.last_key_is_fresh ∧
          st2.valid_count = st.valid_count) ∨
        (st2.last_key_is_fresh = true ∧
          st2.valid_count = st.valid_count + 1) := by
        rcases hD0 with ⟨ha, hb, _⟩ | ⟨ha, hb, _⟩
        · exact Or.inl ⟨ha, hb⟩
        · exact Or.inr ⟨ha, hb⟩
      rcases hD with ⟨ha, hb⟩ | ⟨ha, hb⟩
      · rw [ha, hb, hfreshF]
        constructor
        · intro hc
          exact absurd hc (by simp)
        · rintro (hs | hv)
          · exact absurd hs.2.2 hfresh
          · exact absurd hv (by omega)
      · rw [ha, hb]
        constructor
        · intro _
          exact Or.inr rfl
        · intro _
          rfl
  · have hstep : scanStep env st t = processTuple env { st with last_key := t.key, last_key_is_fresh := false, total_count := st.total_count + 1, m_bytes_read_blob := st.m_bytes_read_blob + t.blob_index.blob_handle.size } t := by
      simp [scanStep, hsd, hdup]
    rw [hstep] at h
    have hnsk : ¬ skipCond st t := fun hs => hdup ⟨hs.1, hs.2.1⟩
    obtain ⟨_, hD0⟩ := processTuple_effect env _ t st2 (Or.inl h)
    have hD : (st2.last_key_is_fresh = false ∧
        st2.valid_count = st.valid_count) ∨
      (st2.last_key_is_fresh = true ∧
        st2.valid_count = st.valid_count + 1) := by
      rcases hD0 with ⟨ha, hb, _⟩ | ⟨ha, hb, _⟩
      · exact Or.inl ⟨ha, hb⟩
      · exact Or.inr ⟨ha, hb⟩
    rcases hD with ⟨ha, hb⟩ | ⟨ha, hb⟩
    · rw [ha, hb]
      constructor
      · intro hc
        exact absurd hc (by simp)
      · rintro (hs | hv)
        · exact absurd hs hnsk
        · exact absurd hv (by omega)
    · rw [ha, hb]
      constructor
      · intro _
        exact Or.inr rfl
      · intro _
        rfl

/-- C4: a tuple whose key equals `last_key` while `last_key_is_fresh` is
skipped — the iteration only bumps the scan counter and the blob-read
metric, classifying nothing and producing no rewrite batch or output
record; consequently (keys non-empty and equal keys adjacent, as the
merged iterator yields them) at most one version per user key is enqueued
for rewrite and at most one is written to an output file; and after any
continuing iteration `last_key_is_fresh` holds exactly when the tuple was
skipped-fresh or was classified live. -/
theorem newest_only_rewrite (env : GCEnv) :
    (∀ st t, env.shutting_down = false → skipCond st t →
      scanStep env st t = .cont { st with total_count := st.total_count + 1, m_bytes_read_blob := st.m_bytes_read_blob + t.blob_index.blob_handle.size }) ∧
    (∀ st t st2, env.shutting_down = false → scanStep env st t = .cont st2 →
      (st2.last_key_is_fresh = true ↔
        skipCond st t ∨ st2.valid_count = st.valid_count + 1)) ∧
    (∀ tuples, (∀ x ∈ tuples, x.key ≠ "") →
      Grouped (tuples.map (fun x => x.key)) →
      (∀ k, (batchKeys (DoRunGC env tuples).1).count k ≤ 1) ∧
      (∀ k, (outRecordKeys (DoRunGC env tuples).1).count k ≤ 1)) := by
  refine ⟨?_, ?_, ?_⟩
  · intro st t hsd hsk
    simp [scanStep, hsd, hsk.1, hsk.2.1, hsk.2.2]
  · intro st t st2 hsd h
    exact scanStep_fresh_iff env st t st2 hsd h
  · intro tuples hne hg
    have hinit := scan_inv env tuples initGCState
      (by intro k; simp [batchKeys, initGCState])
      (by intro k; simp [outRecordKeys, initGCState])
      (by
        intro k hk
        exfalso
        rcases hk with hk | hk
        · simp [batchKeys, initGCState] at hk
        · simp [outRecordKeys, initGCState] at hk)
      (by
        have hnm : "" ∉ tuples.map (fun x => x.key) := by
          intro hm
          rcases List.mem_map.mp hm with ⟨x, hx, hkey⟩
          exact hne x hx hkey
        exact grouped_cons_of_not_mem "" _ hnm hg)
      hne
    obtain ⟨hb, hr⟩ := DoRunGC_state_keys env tuples
    rw [hb, hr]
    exact hinit

/-- Witness for `newest_only_rewrite`: a fresh duplicate is skipped with
only the counters bumped, and the two-record grouped run rewrites each key
at most once. -/
theorem newest_only_rewrite_witness :
    scanStep rollEnv { initGCState with last_key := "aaaaaa", last_key_is_fresh := true } bigT1 =
      .cont { initGCState with last_key := "aaaaaa", last_key_is_fresh := true, total_count := 1, m_bytes_read_blob := 12 } ∧
    (∀ k, (batchKeys (DoRunGC rollEnv [bigT1, bigT2]).1).count k ≤ 1) ∧
    (∀ k, (outRecordKeys (DoRunGC rollEnv [bigT1, bigT2]).1).count k ≤ 1) :=
  ⟨(newest_only_rewrite rollEnv).1
      { initGCState with last_key := "aaaaaa", last_key_is_fresh := true }
      bigT1 rfl ⟨by decide, rfl, rfl⟩,
   ((newest_only_rewrite rollEnv).2.2 [bigT1, bigT2] (by decide)
      (by unfold Grouped; decide)).1,
   ((newest_only_rewrite rollEnv).2.2 [bigT1, bigT2] (by decide)
      (by unfold Grouped; decide)).2⟩

end TitanGC
